import Mathlib

/-!
Shallow embedding of the mrbgpdv2 BGP speaker (Rust) in Lean 4.

Byte buffers (`BytesMut`, `&[u8]`, `Vec<u8>`) are modelled as `List Nat`
whose elements are below 256; machine integers (`u8`, `u16`) are `Nat`
with explicit `% 256` / `% 65536` where the source truncates. Fallible
Rust code (`TryFrom`, functions that may panic on out-of-range slice
indexing) is modelled with `Option`: both a returned `Err` and a panic
become `none`. Rust `HashMap`s are modelled as association lists in
insertion order; `BTreeSet<AutonomousSystemNumber>` is modelled as a
strictly sorted `List Nat`.

Source files embedded: src/bgp_type.rs, src/packets/header.rs,
src/packets/open.rs, src/packets/keepalive.rs, src/packets/update.rs,
src/path_attribute.rs, src/routing.rs, src/event.rs, src/event_queue.rs,
src/peer.rs.
-/

namespace Mrbgpdv2

/-! ## Small byte helpers -/

/-- Big-endian bytes of a `u16` value, as `u16::to_be_bytes` /
`BufMut::put_u16` produce them. -/
def u16ToBytes (v : Nat) : List Nat := [v / 256 % 256, v % 256]

/-- `u16::from_be_bytes([a, b])`. -/
def u16FromBytes (a b : Nat) : Nat := 256 * a + b

/-! ## bgp_type.rs -/

/-- `Version::try_from(u8)`: the source accepts any `v <= 4`
(`if v <= 4 { Ok(Version(v)) } else { Err(..) }`). -/
def versionTryFrom (v : Nat) : Option Nat :=
  if v ≤ 4 then some v else none

/-- `Version::default` / `Version::new`: 4. -/
def versionNew : Nat := 4

/-- `HoldTime::default` / `HoldTime::new`: 240. -/
def holdTimeNew : Nat := 240

/-! ## routing.rs: Ipv4Network and its wire form -/

/-- `std::net::Ipv4Addr`, by its four octets. -/
structure Ipv4Addr where
  o1 : Nat
  o2 : Nat
  o3 : Nat
  o4 : Nat
deriving DecidableEq

def Ipv4Addr.octets (a : Ipv4Addr) : List Nat := [a.o1, a.o2, a.o3, a.o4]

/-- `crate::routing::Ipv4Network`, wrapping `ipnetwork::Ipv4Network`:
an address and a mask length (`plen` models the source field named
after the mask length; that Rust name collides with a Lean keyword). -/
structure Ipv4Network where
  addr : Ipv4Addr
  plen : Nat
deriving DecidableEq

/-- One masked octet of `Ipv4Addr::network()`: octet index `k`
(0-based) keeps `min 8 (plen - 8*k)` leading bits. -/
def maskOctet (plen k o : Nat) : Nat :=
  let bits := min 8 (plen - 8 * k)
  o / 2 ^ (8 - bits) * 2 ^ (8 - bits)

/-- `ipnetwork::Ipv4Network::network()`: the address with host bits
cleared. -/
def Ipv4Network.network (n : Ipv4Network) : Ipv4Addr :=
  ⟨maskOctet n.plen 0 n.addr.o1, maskOctet n.plen 1 n.addr.o2,
   maskOctet n.plen 2 n.addr.o3, maskOctet n.plen 3 n.addr.o4⟩

/-- `Ipv4Network::bytes_len`: `1 + ceil(plen / 8)` by explicit range
match. The source panics for a mask length above 32; that case is
modelled as 0 and is excluded by every well-formedness hypothesis. -/
def Ipv4Network.bytesLen (n : Ipv4Network) : Nat :=
  if n.plen = 0 then 1
  else if n.plen ≤ 8 then 2
  else if n.plen ≤ 16 then 3
  else if n.plen ≤ 24 then 4
  else if n.plen ≤ 32 then 5
  else 0

/-- `From<&Ipv4Network> for BytesMut`: mask-length byte, then just
enough octets of `network()` to cover the masked bits. The source
panics for a mask length above 32; modelled as the bare length byte,
excluded by every well-formedness hypothesis. -/
def ipv4NetworkToBytes (n : Ipv4Network) : List Nat :=
  let m := n.network
  n.plen ::
    (if n.plen = 0 then []
     else if n.plen ≤ 8 then [m.o1]
     else if n.plen ≤ 16 then [m.o1, m.o2]
     else if n.plen ≤ 24 then [m.o1, m.o2, m.o3]
     else if n.plen ≤ 32 then [m.o1, m.o2, m.o3, m.o4]
     else [])

/-- The loop of `Ipv4Network::from_u8_slice`, with fuel for
termination (each turn consumes at least the mask-length byte, so
fuel = initial byte count always suffices). Reads a mask-length byte,
then the covered octets (missing octets of the address are zero),
until the slice is consumed. Too few remaining bytes panics in the
source (slice index out of range); that is `none` here, as is a mask
length above 32. -/
def ipv4Loop : Nat → List Nat → Option (List Ipv4Network)
  | _, [] => some []
  | 0, _ :: _ => none
  | fuel + 1, p :: rest =>
    if p = 0 then
      (ipv4Loop fuel rest).map (fun l => ⟨⟨0, 0, 0, 0⟩, p⟩ :: l)
    else if p ≤ 8 then
      if rest.length < 1 then none
      else (ipv4Loop fuel (rest.drop 1)).map
        (fun l => ⟨⟨rest.getD 0 0, 0, 0, 0⟩, p⟩ :: l)
    else if p ≤ 16 then
      if rest.length < 2 then none
      else (ipv4Loop fuel (rest.drop 2)).map
        (fun l => ⟨⟨rest.getD 0 0, rest.getD 1 0, 0, 0⟩, p⟩ :: l)
    else if p ≤ 24 then
      if rest.length < 3 then none
      else (ipv4Loop fuel (rest.drop 3)).map
        (fun l => ⟨⟨rest.getD 0 0, rest.getD 1 0, rest.getD 2 0, 0⟩, p⟩ :: l)
    else if p ≤ 32 then
      if rest.length < 4 then none
      else (ipv4Loop fuel (rest.drop 4)).map
        (fun l => ⟨⟨rest.getD 0 0, rest.getD 1 0, rest.getD 2 0, rest.getD 3 0⟩,
          p⟩ :: l)
    else none

/-- `Ipv4Network::from_u8_slice`. -/
def ipv4NetworkFromU8Slice (bytes : List Nat) : Option (List Ipv4Network) :=
  ipv4Loop bytes.length bytes

/-- Well-formed network: mask length at most 32, octets are bytes, and
the host bits beyond the mask are zero (`network()` is the identity). -/
def wfNet (n : Ipv4Network) : Bool :=
  n.plen ≤ 32 && n.addr.o1 < 256 && n.addr.o2 < 256 && n.addr.o3 < 256 &&
    n.addr.o4 < 256 && n.network = n.addr

/-! ## path_attribute.rs -/

/-- `Origin`. -/
inductive Origin
  | igp
  | egp
  | incomplete
deriving DecidableEq

/-- The value octet the encoder writes for an `Origin`. -/
def Origin.toByte : Origin → Nat
  | .igp => 0
  | .egp => 1
  | .incomplete => 2

/-- `Origin::try_from(u8)`. -/
def originTryFrom (v : Nat) : Option Origin :=
  if v = 0 then some .igp
  else if v = 1 then some .egp
  else if v = 2 then some .incomplete
  else none

/-- `AsPath`. The `asSet` variant models `BTreeSet<AutonomousSystemNumber>`
as its strictly ascending list of elements. -/
inductive AsPath
  | asSequence (l : List Nat)
  | asSet (l : List Nat)
deriving DecidableEq

/-- Ordered no-duplicate insertion, as `BTreeSet::insert` behaves on the
ascending-element view. -/
def btreeInsert (a : Nat) : List Nat → List Nat
  | [] => [a]
  | b :: r =>
    if a < b then a :: b :: r
    else if a = b then b :: r
    else b :: btreeInsert a r

/-- `AsPath::bytes_len`: segment-type octet + count octet + two octets
per AS number. -/
def AsPath.bytesLen : AsPath → Nat
  | .asSequence l => 1 + 1 + 2 * l.length
  | .asSet l => 1 + 1 + 2 * l.length

/-- `AsPath::does_contain`. -/
def AsPath.doesContain (a : AsPath) (asn : Nat) : Bool :=
  match a with
  | .asSequence l => l.contains asn
  | .asSet l => l.contains asn

/-- `AsPath::push` (and the identical `AsPath::add`): append to a
sequence, ordered-insert into a set. -/
def AsPath.push (a : AsPath) (asn : Nat) : AsPath :=
  match a with
  | .asSequence l => .asSequence (l ++ [asn])
  | .asSet l => .asSet (btreeInsert asn l)

/-- `From<&AsPath> for BytesMut`: segment type (1 = set, 2 = sequence),
count (`as u8`), then big-endian AS numbers. -/
def asPathToBytes : AsPath → List Nat
  | .asSet l => 1 :: l.length % 256 :: l.flatMap (fun a => u16ToBytes (a % 65536))
  | .asSequence l => 2 :: l.length % 256 :: l.flatMap (fun a => u16ToBytes (a % 65536))

/-- The pair loop shared by both arms of `TryFrom<&[u8]> for AsPath`:
`while i < value.len()` reading two-byte big-endian AS numbers. A
trailing odd byte makes the source panic on `value[i..i + 2]`. -/
def asListFromBytes : List Nat → Option (List Nat)
  | [] => some []
  | [_] => none
  | a :: b :: r => (asListFromBytes r).map (fun l => u16FromBytes a b :: l)

/-- `TryFrom<&[u8]> for AsPath`: `value[0]` selects the variant (panic
on an empty slice), the count octet `value[1]` is skipped, then the
pair loop runs from index 2. The set arm folds `BTreeSet::insert`. -/
def asPathTryFrom : List Nat → Option AsPath
  | [] => none
  | t :: rest =>
    if t = 1 then
      (asListFromBytes (rest.drop 1)).map
        (fun l => .asSet (l.foldl (fun s a => btreeInsert a s) []))
    else if t = 2 then
      (asListFromBytes (rest.drop 1)).map .asSequence
    else none

/-- `PathAttribute`. `dontKnow` is the source `DontKnow(Vec<u8>)`
(spec name: `Unknown`), holding the whole raw attribute. -/
inductive PathAttribute
  | origin (o : Origin)
  | asPath (a : AsPath)
  | nextHop (ip : Ipv4Addr)
  | dontKnow (v : List Nat)
deriving DecidableEq

/-- `PathAttribute::bytes_len`: value length plus flag and type octets,
plus one length octet, or two when the value length exceeds 255. -/
def PathAttribute.bytesLen (p : PathAttribute) : Nat :=
  let v : Nat :=
    match p with
    | .origin _ => 1
    | .asPath a => a.bytesLen
    | .nextHop _ => 4
    | .dontKnow l => l.length
  if v > 255 then v + 2 + 2 else v + 2 + 1

/-- `From<&PathAttribute> for BytesMut`. Well-known attributes carry
flags 0b0100_0000 and a one-octet length; an AsPath whose value length
(taken `as u16`) is 256 or more switches to flags 0b0101_0000 and a
two-octet length. `DontKnow` emits its raw bytes verbatim. -/
def pathAttributeToBytes : PathAttribute → List Nat
  | .origin o => [64, 1, 1, o.toByte]
  | .asPath a =>
    let al := a.bytesLen % 65536
    if al < 256 then 64 :: 2 :: al :: asPathToBytes a
    else 80 :: 2 :: (al / 256) :: (al % 256) :: asPathToBytes a
  | .nextHop ip => [64, 3, 4, ip.o1, ip.o2, ip.o3, ip.o4]
  | .dontKnow v => v

/-- One step plus recursion of `PathAttribute::from_u8_slice`, with
fuel for termination (the loop advances `i` by at least 3 each turn,
so fuel = initial byte count always suffices). Mirrors the source
faithfully, including `attribute_length_octets = (flags & 0x10) + 1`
(17, not 2, when the extended-length bit is set) and the per-arm
slice accesses and their panic conditions. -/
def pathAttrLoop : Nat → List Nat → Option (List PathAttribute)
  | _, [] => some []
  | 0, _ :: _ => none
  | fuel + 1, flag :: rest =>
    let bytes := flag :: rest
    let lo := Nat.land flag 16 + 1
    match bytes.get? 1 with
    | none => none
    | some tc =>
      let attrLen? : Option Nat :=
        if lo = 1 then bytes.get? 2
        else
          match bytes.get? 2, bytes.get? 3 with
          | some a, some b => some (u16FromBytes a b)
          | _, _ => none
      match attrLen? with
      | none => none
      | some attrLen =>
        let start := 2 + lo
        let endd := start + attrLen
        let value := (bytes.drop start).take attrLen
        let pa? : Option PathAttribute :=
          if tc = 1 then ((bytes.get? start).bind originTryFrom).map .origin
          else if tc = 2 then
            if endd ≤ bytes.length then (asPathTryFrom value).map .asPath
            else none
          else if tc = 3 then
            match bytes.get? start, bytes.get? (start + 1),
                bytes.get? (start + 2), bytes.get? (start + 3) with
            | some a, some b, some c, some d => some (.nextHop ⟨a, b, c, d⟩)
            | _, _, _, _ => none
          else
            if endd ≤ bytes.length then some (.dontKnow (bytes.take endd))
            else none
        match pa? with
        | none => none
        | some pa => (pathAttrLoop fuel (bytes.drop endd)).map (fun l => pa :: l)

/-- `PathAttribute::from_u8_slice`. -/
def pathAttributeFromU8Slice (bytes : List Nat) : Option (List PathAttribute) :=
  pathAttrLoop bytes.length bytes

/-! ## packets/header.rs -/

/-- `MessageType`. -/
inductive MessageType
  | openType
  | updateType
  | keepaliveType
deriving DecidableEq

/-- `From<MessageType> for u8`. -/
def MessageType.toU8 : MessageType → Nat
  | .openType => 1
  | .updateType => 2
  | .keepaliveType => 4

/-- `TryFrom<u8> for MessageType`. -/
def messageTypeTryFrom (n : Nat) : Option MessageType :=
  if n = 1 then some .openType
  else if n = 2 then some .updateType
  else if n = 4 then some .keepaliveType
  else none

/-- `Header`: a `u16` length and a type. -/
structure Header where
  length : Nat
  type_ : MessageType
deriving DecidableEq

/-- `From<Header> for BytesMut`: 16 marker bytes of 0xFF, big-endian
length, type octet. -/
def headerToBytes (h : Header) : List Nat :=
  List.replicate 16 255 ++ [h.length / 256 % 256, h.length % 256, h.type_.toU8]

/-- `TryFrom<BytesMut> for Header`: ignores the marker, reads
`bytes[16..18]` as the length and `bytes[18]` as the type. Fewer than
19 bytes panics in the source (out-of-range index). -/
def headerTryFrom (bytes : List Nat) : Option Header :=
  if bytes.length < 19 then none
  else
    (messageTypeTryFrom (bytes.getD 18 0)).map
      (fun t => ⟨u16FromBytes (bytes.getD 16 0) (bytes.getD 17 0), t⟩)

/-! ## packets/open.rs -/

/-- `OpenMessage`. -/
structure OpenMessage where
  header : Header
  version : Nat
  myAsNumber : Nat
  holdTime : Nat
  bgpIdentifier : Ipv4Addr
  optionalParameterLength : Nat
  optionalParameters : List Nat
deriving DecidableEq

/-- `OpenMessage::new(my_as_number, my_ip_addr)`. -/
def openMessageNew (asn : Nat) (ip : Ipv4Addr) : OpenMessage :=
  ⟨⟨29, .openType⟩, versionNew, asn, holdTimeNew, ip, 0, []⟩

/-- `From<OpenMessage> for BytesMut`. -/
def openMessageToBytes (m : OpenMessage) : List Nat :=
  headerToBytes m.header ++ m.version % 256 ::
    (u16ToBytes (m.myAsNumber % 65536) ++ (u16ToBytes (m.holdTime % 65536) ++
      (m.bgpIdentifier.octets ++ m.optionalParameterLength % 256 ::
        m.optionalParameters)))

/-- `TryFrom<BytesMut> for OpenMessage`: header from `bytes[0..19]`,
version from `bytes[19]`, AS and hold time big-endian, identifier from
`bytes[24..28]`, optional-parameter length from `bytes[28]`, the rest
verbatim. Fewer than 29 bytes panics in the source. -/
def openMessageTryFrom (bytes : List Nat) : Option OpenMessage :=
  if bytes.length < 29 then none
  else
    match headerTryFrom (bytes.take 19), versionTryFrom (bytes.getD 19 0) with
    | some h, some v =>
      some ⟨h, v, u16FromBytes (bytes.getD 20 0) (bytes.getD 21 0),
        u16FromBytes (bytes.getD 22 0) (bytes.getD 23 0),
        ⟨bytes.getD 24 0, bytes.getD 25 0, bytes.getD 26 0, bytes.getD 27 0⟩,
        bytes.getD 28 0, bytes.drop 29⟩
    | _, _ => none

/-! ## packets/keepalive.rs -/

/-- `KeepaliveMessage`. -/
structure KeepaliveMessage where
  header : Header
deriving DecidableEq

/-- `KeepaliveMessage::new`. -/
def keepaliveMessageNew : KeepaliveMessage := ⟨⟨19, .keepaliveType⟩⟩

/-- `From<KeepaliveMessage> for BytesMut`. -/
def keepaliveMessageToBytes (m : KeepaliveMessage) : List Nat :=
  headerToBytes m.header

/-- `TryFrom<BytesMut> for KeepaliveMessage`: parse the header, then
require the keepalive type. -/
def keepaliveMessageTryFrom (bytes : List Nat) : Option KeepaliveMessage :=
  match headerTryFrom bytes with
  | none => none
  | some h => if h.type_ = .keepaliveType then some ⟨h⟩ else none

/-! ## packets/update.rs -/

/-- `UpdateMessage`. The two length fields hold octet counts, not
route counts. -/
structure UpdateMessage where
  header : Header
  withdrawnRoutes : List Ipv4Network
  withdrawnRoutesLength : Nat
  pathAttributes : List PathAttribute
  pathAttributesLength : Nat
  networkLayerReachabilityInformation : List Ipv4Network
deriving DecidableEq

/-- `UpdateMessage::new(path_attributes, nlri, withdrawn_routes)`: the
length fields are `bytes_len` sums taken `as u16`, and the header
length is their `u16` sum plus 19 + 4. -/
def updateMessageNew (pas : List PathAttribute) (nlri ws : List Ipv4Network) :
    UpdateMessage :=
  let pl := (pas.map PathAttribute.bytesLen).sum % 65536
  let nl := (nlri.map Ipv4Network.bytesLen).sum % 65536
  let wl := (ws.map Ipv4Network.bytesLen).sum % 65536
  ⟨⟨(19 + pl + nl + wl + 4) % 65536, .updateType⟩, ws, wl, pas, pl, nlri⟩

/-- `From<UpdateMessage> for BytesMut`. -/
def updateMessageToBytes (m : UpdateMessage) : List Nat :=
  headerToBytes m.header ++
    (u16ToBytes (m.withdrawnRoutesLength % 65536) ++
      (m.withdrawnRoutes.flatMap ipv4NetworkToBytes ++
        (u16ToBytes (m.pathAttributesLength % 65536) ++
          (m.pathAttributes.flatMap pathAttributeToBytes ++
            m.networkLayerReachabilityInformation.flatMap ipv4NetworkToBytes))))

/-- `TryFrom<BytesMut> for UpdateMessage`: header from `bytes[0..19]`,
withdrawn length from `bytes[19..21]`, withdrawn routes from the next
`withdrawn_routes_length` bytes, path-attribute length from the two
bytes after them, path attributes from that many bytes, and the whole
remainder as NLRI. Out-of-range slices panic in the source. -/
def updateMessageTryFrom (bytes : List Nat) : Option UpdateMessage :=
  if bytes.length < 21 then none
  else
    match headerTryFrom (bytes.take 19) with
    | none => none
    | some h =>
      let wl := u16FromBytes (bytes.getD 19 0) (bytes.getD 20 0)
      let wend := 21 + wl
      if bytes.length < wend + 2 then none
      else
        match ipv4NetworkFromU8Slice ((bytes.drop 21).take wl) with
        | none => none
        | some ws =>
          let pl := u16FromBytes (bytes.getD wend 0) (bytes.getD (wend + 1) 0)
          let pstart := wend + 2
          if bytes.length < pstart + pl then none
          else
            match pathAttributeFromU8Slice ((bytes.drop pstart).take pl) with
            | none => none
            | some pas =>
              match ipv4NetworkFromU8Slice (bytes.drop (pstart + pl)) with
              | none => none
              | some nlri => some ⟨h, ws, wl, pas, pl, nlri⟩

/-! ## routing.rs: RIBs -/

/-- `RibEntryStatus`. -/
inductive RibEntryStatus
  | new
  | unChanged
deriving DecidableEq

/-- `RibEntry`: a network and its shared path-attribute list. Equality
spans both fields, as the derived Rust `PartialEq`/`Hash` do. -/
structure RibEntry where
  networkAddress : Ipv4Network
  pathAttributes : List PathAttribute
deriving DecidableEq

/-- `RibEntry::does_contain_as`: scan the attribute list and return at
the FIRST AsPath attribute found; `false` when none is present. -/
def listDoesContainAs : List PathAttribute → Nat → Bool
  | [], _ => false
  | .asPath a :: _, asn => a.doesContain asn
  | _ :: rest, asn => listDoesContainAs rest asn

def RibEntry.doesContainAs (e : RibEntry) (asn : Nat) : Bool :=
  listDoesContainAs e.pathAttributes asn

/-- The first AsPath attribute of a list, if any (what
`does_contain_as` consults). -/
def firstAsPath : List PathAttribute → Option AsPath
  | [] => none
  | .asPath a :: _ => some a
  | _ :: rest => firstAsPath rest

/-- `Rib`, a `HashMap<Arc<RibEntry>, RibEntryStatus>`, modelled as an
association list in insertion order. -/
abbrev Rib := List (RibEntry × RibEntryStatus)

def ribEmpty : Rib := []

/-- Membership lookup backing `HashMap::entry`. -/
def ribContainsKey (r : Rib) (e : RibEntry) : Bool :=
  r.any (fun q => q.1 = e)

/-- `Rib::insert`: `entry(e).or_insert(New)` — a present key keeps its
status, an absent key is added with status `New`. -/
def ribInsert (r : Rib) (e : RibEntry) : Rib :=
  if ribContainsKey r e then r else r ++ [(e, .new)]

/-- `Rib::update_to_all_unchanged`. -/
def ribUpdateToAllUnchanged (r : Rib) : Rib :=
  r.map (fun q => (q.1, .unChanged))

/-- `Rib::routes`. -/
def ribRoutes (r : Rib) : List RibEntry := r.map (fun q => q.1)

/-- `Rib::does_contain_new_route`. -/
def ribDoesContainNewRoute (r : Rib) : Bool :=
  r.any (fun q => q.2 = RibEntryStatus.new)

/-- `LocRib`: a rib plus the local AS number. -/
structure LocRib where
  rib : Rib
  localAsNumber : Nat
deriving DecidableEq

/-- `LocRib::install_from_adj_rib_in`: insert every AdjRibIn route
whose AsPath does not contain the local AS (BGP-4 section 9.1.2 loop
prevention). -/
def locRibInstallFromAdjRibIn (loc : LocRib) (adjIn : Rib) : LocRib :=
  { loc with
    rib := ((ribRoutes adjIn).filter
        (fun e => ¬ e.doesContainAs loc.localAsNumber)).foldl ribInsert loc.rib }

/-- `AdjRibOut::install_from_loc_rib`: insert every LocRib route whose
AsPath does not contain the remote AS. -/
def adjRibOutInstallFromLocRib (out : Rib) (loc : LocRib) (remoteAs : Nat) : Rib :=
  ((ribRoutes loc.rib).filter (fun e => ¬ e.doesContainAs remoteAs)).foldl
    ribInsert out

/-- `AdjRibIn::install_from_update`: one entry per NLRI network, all
sharing the path-attribute list of the update. -/
def adjRibInInstallFromUpdate (rin : Rib) (u : UpdateMessage) : Rib :=
  u.networkLayerReachabilityInformation.foldl
    (fun r net => ribInsert r ⟨net, u.pathAttributes⟩) rin

/-- The attribute rewrite of `AdjRibOut::create_update_messages`: the
loop body sets every NextHop to the local IP and pushes the local AS
onto every AsPath (the two `if let` arms are mutually exclusive). -/
def rewriteAttribute (localIp : Ipv4Addr) (localAs : Nat) :
    PathAttribute → PathAttribute
  | .nextHop _ => .nextHop localIp
  | .asPath a => .asPath (a.push localAs)
  | p => p

/-- Grouping step of `create_update_messages`: append the network to
the group of an already-seen attribute list, or open a new group. -/
def addToGroup (gs : List (List PathAttribute × List Ipv4Network)) (e : RibEntry) :
    List (List PathAttribute × List Ipv4Network) :=
  if gs.any (fun g => g.1 = e.pathAttributes) then
    gs.map (fun g =>
      if g.1 = e.pathAttributes then (g.1, g.2 ++ [e.networkAddress]) else g)
  else gs ++ [(e.pathAttributes, [e.networkAddress])]

/-- `AdjRibOut::create_update_messages(local_ip, local_as)`: group the
entries by attribute list, rewrite each groups attributes, and build
one UpdateMessage per group with the groups networks as NLRI and no
withdrawn routes. -/
def createUpdateMessages (out : Rib) (localIp : Ipv4Addr) (localAs : Nat) :
    List UpdateMessage :=
  let groups := (ribRoutes out).foldl addToGroup []
  groups.map (fun g =>
    updateMessageNew (g.1.map (rewriteAttribute localIp localAs)) g.2 [])

/-! ## event.rs, packets/message.rs, state, peer.rs -/

/-- `Message` as `peer.rs` consumes it (the three wire message kinds;
the `message.rs` snapshot in the repository lags behind `peer.rs` and
lists only `Open`). -/
inductive Message
  | openMsg (m : OpenMessage)
  | keepaliveMsg (m : KeepaliveMessage)
  | updateMsg (m : UpdateMessage)
deriving DecidableEq

/-- `Event` (RFC 4271 section 8.1 subset plus the RIB-flow events). -/
inductive Event
  | manualStart
  | tcpConnectionConfirmed
  | bgpOpen (m : OpenMessage)
  | keepAliveMsg (m : KeepaliveMessage)
  | updateMsg (m : UpdateMessage)
  | established
  | locRibChanged
  | adjRibOutChanged
  | adjRibInChanged
deriving DecidableEq

/-- `State` (module `state` is declared in `lib.rs`; its five variants
are those `peer.rs` matches on and the spec lists). -/
inductive State
  | idle
  | connect
  | openSent
  | openConfirm
  | established
deriving DecidableEq

/-- `Config`, restricted to the fields the Peer FSM logic reads
(`remote_ip`, `mode` and `networks` only feed the I/O layer). -/
structure Config where
  localAs : Nat
  localIp : Ipv4Addr
  remoteAs : Nat
deriving DecidableEq

/-- `Peer` state: FSM state, FIFO event queue (`EventQueue` is an
unbounded `VecDeque` pushed at one end and popped at the other; head
of the list = next to dequeue), presence of the TCP connection, the
configuration, and the three RIBs (`loc_rib` is shared via a mutex in
the source; one tick accesses it sequentially). -/
structure PeerState where
  state : State
  eventQueue : List Event
  hasConnection : Bool
  config : Config
  locRib : LocRib
  adjRibOut : Rib
  adjRibIn : Rib
deriving DecidableEq

/-- `Peer::handle_message`: map a received message to its event. -/
def messageToEvent : Message → Event
  | .openMsg m => .bgpOpen m
  | .keepaliveMsg m => .keepAliveMsg m
  | .updateMsg m => .updateMsg m

def handleMessage (p : PeerState) (m : Message) : PeerState :=
  { p with eventQueue := p.eventQueue ++ [messageToEvent m] }

/-- `Peer::handle_event`. I/O is made explicit: `connectOk` is whether
`Connection::connect` succeeds, the returned list is the messages
passed to `Connection::send`, and `none` models a panic (the
`ManualStart` failure panic and the `.expect` on a missing
connection). The kernel routing-table write performs no FSM-visible
state change and is not modelled. -/
def handleEvent (p : PeerState) (ev : Event) (connectOk : Bool) :
    Option (PeerState × List Message) :=
  match p.state with
  | .idle =>
    match ev with
    | .manualStart =>
      if connectOk then
        some ({ p with hasConnection := true,
                       eventQueue := p.eventQueue ++ [.tcpConnectionConfirmed],
                       state := .connect }, [])
      else none
    | _ => some (p, [])
  | .connect =>
    match ev with
    | .tcpConnectionConfirmed =>
      if p.hasConnection then
        some ({ p with state := .openSent },
          [.openMsg (openMessageNew p.config.localAs p.config.localIp)])
      else none
    | _ => some (p, [])
  | .openSent =>
    match ev with
    | .bgpOpen _ =>
      if p.hasConnection then
        some ({ p with state := .openConfirm }, [.keepaliveMsg keepaliveMessageNew])
      else none
    | _ => some (p, [])
  | .openConfirm =>
    match ev with
    | .keepAliveMsg _ =>
      some ({ p with state := .established,
                     eventQueue := p.eventQueue ++ [.established] }, [])
    | _ => some (p, [])
  | .established =>
    match ev with
    | .established | .locRibChanged =>
      let installed := adjRibOutInstallFromLocRib p.adjRibOut p.locRib p.config.remoteAs
      if ribDoesContainNewRoute installed then
        some ({ p with adjRibOut := ribUpdateToAllUnchanged installed,
                       eventQueue := p.eventQueue ++ [.adjRibOutChanged] }, [])
      else some ({ p with adjRibOut := installed }, [])
    | .adjRibOutChanged =>
      let updates := createUpdateMessages p.adjRibOut p.config.localIp p.config.localAs
      if updates = [] then some (p, [])
      else if p.hasConnection then some (p, updates.map .updateMsg)
      else none
    | .updateMsg u =>
      let installed := adjRibInInstallFromUpdate p.adjRibIn u
      if ribDoesContainNewRoute installed then
        some ({ p with adjRibIn := ribUpdateToAllUnchanged installed,
                       eventQueue := p.eventQueue ++ [.adjRibInChanged] }, [])
      else some ({ p with adjRibIn := installed }, [])
    | .adjRibInChanged =>
      let installed := locRibInstallFromAdjRibIn p.locRib p.adjRibIn
      if ribDoesContainNewRoute installed.rib then
        some ({ p with locRib := { installed with rib := ribUpdateToAllUnchanged installed.rib },
                       eventQueue := p.eventQueue ++ [.locRibChanged] }, [])
      else some ({ p with locRib := installed }, [])
    | _ => some (p, [])

/-- `Peer::next`: FIRST dequeue and handle one event (if any), THEN,
if a connection exists, drain one inbound message (modelled by the
`incoming` oracle for `Connection::get_message`) and enqueue its
event. -/
def peerNext (p : PeerState) (incoming : Option Message) (connectOk : Bool) :
    Option (PeerState × List Message) :=
  let afterEvent :=
    match p.eventQueue with
    | [] => some (p, ([] : List Message))
    | e :: rest => handleEvent { p with eventQueue := rest } e connectOk
  match afterEvent with
  | none => none
  | some (p1, sent) =>
    if p1.hasConnection then
      match incoming with
      | some m => some (handleMessage p1 m, sent)
      | none => some (p1, sent)
    else some (p1, sent)

/-- Modelled from the spec: the tick order section 4.5 claims — first
drain one inbound message into the queue, then dequeue and handle one
event. Used only to compare against `peerNext`. -/
def specTick (p : PeerState) (incoming : Option Message) (connectOk : Bool) :
    Option (PeerState × List Message) :=
  let afterDrain :=
    if p.hasConnection then
      match incoming with
      | some m => handleMessage p m
      | none => p
    else p
  match afterDrain.eventQueue with
  | [] => some (afterDrain, ([] : List Message))
  | e :: rest => handleEvent { afterDrain with eventQueue := rest } e connectOk

/-- Strictly ascending list — the invariant of the `BTreeSet` view
used by the `asSet` variant. -/
def strictSorted : List Nat → Bool
  | [] => true
  | [_] => true
  | a :: b :: r => a < b && strictSorted (b :: r)

/-- Well-formed AsPath value as `u16` AS numbers produce it: all
numbers fit in 16 bits, the encoded value fits the one-octet length
form (the two-octet form is unreadable by the decoder, see C5), and a
set is in its canonical `BTreeSet` order. -/
def wfAsPath : AsPath → Bool
  | .asSequence l => l.all (fun x => x < 65536) &&
      AsPath.bytesLen (.asSequence l) ≤ 255
  | .asSet l => l.all (fun x => x < 65536) &&
      AsPath.bytesLen (.asSet l) ≤ 255 && strictSorted l

/-- Known, decodable path attribute (everything except `DontKnow`,
with a readable AsPath). -/
def wfAttr : PathAttribute → Bool
  | .origin _ => true
  | .asPath a => wfAsPath a
  | .nextHop _ => true
  | .dontKnow _ => false

/-- Whether a path attribute is an AsPath attribute. -/
def isAsPathAttr : PathAttribute → Bool
  | .asPath _ => true
  | _ => false

/-- How many times an AS number occurs in an AsPath value. -/
def asPathCount (asn : Nat) : AsPath → Nat
  | .asSequence l => l.count asn
  | .asSet l => l.count asn

/-- The (state, event) pairs the non-Established rows of the
transition table handle; everything else is the `_ => {}` arm. -/
def nonEstablishedHandled : State → Event → Bool
  | .idle, .manualStart => true
  | .connect, .tcpConnectionConfirmed => true
  | .openSent, .bgpOpen _ => true
  | .openConfirm, .keepAliveMsg _ => true
  | _, _ => false

end Mrbgpdv2

namespace Mrbgpdv2

/-! # Theorems -/

/-! ## Helper lemmas -/

theorem mem_ribRoutes_iff {r : Rib} {e : RibEntry} :
    e ∈ ribRoutes r ↔ ∃ q ∈ r, q.1 = e := by
  simp [ribRoutes, List.mem_map, eq_comm]

theorem ribContainsKey_true_mem {r : Rib} {e : RibEntry}
    (h : ribContainsKey r e = true) : e ∈ ribRoutes r := by
  simp only [ribContainsKey, List.any_eq_true, decide_eq_true_eq] at h
  exact mem_ribRoutes_iff.mpr h

theorem mem_ribRoutes_insert {r : Rib} {e x : RibEntry} :
    e ∈ ribRoutes (ribInsert r x) ↔ e ∈ ribRoutes r ∨ e = x := by
  unfold ribInsert
  by_cases hc : ribContainsKey r x = true
  · simp only [hc, if_true]
    constructor
    · exact fun h => Or.inl h
    · rintro (h | rfl)
      · exact h
      · exact ribContainsKey_true_mem hc
  · simp only [hc, if_false]
    simp [ribRoutes]

theorem mem_ribRoutes_foldl {l : List RibEntry} {r : Rib} {e : RibEntry} :
    e ∈ ribRoutes (l.foldl ribInsert r) ↔ e ∈ ribRoutes r ∨ e ∈ l := by
  induction l generalizing r with
  | nil => simp
  | cons a t ih =>
    simp only [List.foldl_cons, ih, mem_ribRoutes_insert, List.mem_cons]
    tauto

theorem mem_ribUpdateToAllUnchanged {r : Rib} {q : RibEntry × RibEntryStatus}
    (h : q ∈ ribUpdateToAllUnchanged r) : q.2 = RibEntryStatus.unChanged := by
  simp only [ribUpdateToAllUnchanged, List.mem_map] at h
  obtain ⟨x, _, rfl⟩ := h
  rfl

theorem listDoesContainAs_eq_firstAsPath (l : List PathAttribute) (asn : Nat) :
    listDoesContainAs l asn =
      (match firstAsPath l with
       | some a => a.doesContain asn
       | none => false) := by
  induction l with
  | nil => rfl
  | cons p t ih => cases p <;> simp [listDoesContainAs, firstAsPath, ih]

/-! ## C9 -/

/-- C9: claims `Version::try_from(v)` succeeds exactly when
`1 ≤ v ≤ 4` and that the default is 4. The default is indeed 4, but
the source check is `v <= 4`, so the byte 0 is also accepted: the
evaluation below exhibits `try_from(0) = Ok(Version(0))`, against both
the claim and the functions own error message. -/
theorem c9_version_zero_accepted :
    versionTryFrom 0 = some 0 ∧ versionNew = 4 ∧ versionTryFrom 5 = none := by
  decide

/-! ## C5 -/

set_option maxRecDepth 100000 in
/-- C5: claims `decode(encode(p)) = p` for every known PathAttribute,
including an AsPath whose encoded value exceeds 255 bytes. The encoder
does emit the extended-length form (flags 0x50, two length octets) for
the 127-AS sequence below, whose value takes 256 bytes — but the
decoder computes `attribute_length_octets = (flags & 0x10) + 1 = 17`,
places the value start at offset 19 instead of 4, and overruns the
slice: decoding the encoding fails instead of returning the attribute. -/
theorem c5_extended_length_decode_fails :
    AsPath.bytesLen (.asSequence (List.range 127)) = 256 ∧
    pathAttributeFromU8Slice
        (pathAttributeToBytes (.asPath (.asSequence (List.range 127)))) = none := by
  constructor
  · decide
  · decide

/-! ## C1 -/

/-- C1: claims `decode(encode(m)) = m` for every well-formed message
built by the public constructors. `UpdateMessage::new` with one
Unknown (`DontKnow`) attribute breaks it: the attribute encoder emits
the raw 4 bytes verbatim, but `bytes_len` counts 4 + 3 = 7, so the
total-path-attribute-length field claims 7 octets where 4 exist and
decoding fails on an out-of-range slice. -/
theorem c1_unknown_attribute_breaks_roundtrip :
    (pathAttributeToBytes (.dontKnow [64, 9, 1, 0])).length = 4 ∧
    PathAttribute.bytesLen (.dontKnow [64, 9, 1, 0]) = 7 ∧
    updateMessageTryFrom
        (updateMessageToBytes (updateMessageNew [.dontKnow [64, 9, 1, 0]] [] [])) =
      none := by
  refine ⟨by decide, by decide, by decide⟩

/-! ## C8: Ipv4Network wire round trip -/

theorem maskOctet_zero {p k o : Nat} (hk : p ≤ 8 * k) (ho : o < 256)
    (h : maskOctet p k o = o) : o = 0 := by
  have h8 : p - 8 * k = 0 := by omega
  unfold maskOctet at h
  rw [h8] at h
  norm_num at h
  have hd : o / 256 = 0 := Nat.div_eq_of_lt ho
  omega

theorem ipv4Loop_step (n : Ipv4Network) (h : wfNet n = true) (f : Nat)
    (rest : List Nat) :
    ipv4Loop (f + 1) (ipv4NetworkToBytes n ++ rest) =
      (ipv4Loop f rest).map (fun l => n :: l) := by
  obtain ⟨⟨a, b, c, d⟩, p⟩ := n
  simp only [wfNet, Bool.and_eq_true, decide_eq_true_eq, Ipv4Network.network,
    Ipv4Addr.mk.injEq] at h
  obtain ⟨⟨⟨⟨⟨hp, ha⟩, hb⟩, hc⟩, hd⟩, hm1, hm2, hm3, hm4⟩ := h
  by_cases hp0 : p = 0
  · subst hp0
    obtain rfl : a = 0 := maskOctet_zero (by omega) ha hm1
    obtain rfl : b = 0 := maskOctet_zero (by omega) hb hm2
    obtain rfl : c = 0 := maskOctet_zero (by omega) hc hm3
    obtain rfl : d = 0 := maskOctet_zero (by omega) hd hm4
    rfl
  · by_cases hp8 : p ≤ 8
    · obtain rfl : b = 0 := maskOctet_zero (by omega) hb hm2
      obtain rfl : c = 0 := maskOctet_zero (by omega) hc hm3
      obtain rfl : d = 0 := maskOctet_zero (by omega) hd hm4
      simp only [ipv4NetworkToBytes, Ipv4Network.network, if_neg hp0,
        if_pos hp8, hm1, List.cons_append, List.nil_append]
      rw [ipv4Loop]
      simp only [if_neg hp0, if_pos hp8, List.length_cons,
        if_neg (by omega : ¬ rest.length + 1 < 1), List.getD_cons_zero,
        List.drop_succ_cons, List.drop_zero]
    · by_cases hp16 : p ≤ 16
      · obtain rfl : c = 0 := maskOctet_zero (by omega) hc hm3
        obtain rfl : d = 0 := maskOctet_zero (by omega) hd hm4
        simp only [ipv4NetworkToBytes, Ipv4Network.network, if_neg hp0,
          if_neg hp8, if_pos hp16, hm1, hm2, List.cons_append, List.nil_append]
        rw [ipv4Loop]
        simp only [if_neg hp0, if_neg hp8, if_pos hp16, List.length_cons,
          if_neg (by omega : ¬ rest.length + 1 + 1 < 2), List.getD_cons_zero,
          List.getD_cons_succ, List.drop_succ_cons, List.drop_zero]
      · by_cases hp24 : p ≤ 24
        · obtain rfl : d = 0 := maskOctet_zero (by omega) hd hm4
          simp only [ipv4NetworkToBytes, Ipv4Network.network, if_neg hp0,
            if_neg hp8, if_neg hp16, if_pos hp24, hm1, hm2, hm3,
            List.cons_append, List.nil_append]
          rw [ipv4Loop]
          simp only [if_neg hp0, if_neg hp8, if_neg hp16, if_pos hp24,
            List.length_cons,
            if_neg (by omega : ¬ rest.length + 1 + 1 + 1 < 3),
            List.getD_cons_zero, List.getD_cons_succ, List.drop_succ_cons,
            List.drop_zero]
        · simp only [ipv4NetworkToBytes, Ipv4Network.network, if_neg hp0,
            if_neg hp8, if_neg hp16, if_neg hp24, if_pos hp, hm1, hm2, hm3, hm4,
            List.cons_append, List.nil_append]
          rw [ipv4Loop]
          simp only [if_neg hp0, if_neg hp8, if_neg hp16, if_neg hp24,
            if_pos hp, List.length_cons,
            if_neg (by omega : ¬ rest.length + 1 + 1 + 1 + 1 < 4),
            List.getD_cons_zero, List.getD_cons_succ, List.drop_succ_cons,
            List.drop_zero]

theorem ipv4Loop_flat (ns : List Ipv4Network)
    (h : ∀ n ∈ ns, wfNet n = true) :
    ∀ f, ns.length ≤ f →
      ipv4Loop f (ns.flatMap ipv4NetworkToBytes) = some ns := by
  induction ns with
  | nil =>
    intro f _
    cases f <;> rfl
  | cons n t ih =>
    intro f hf
    cases f with
    | zero => simp at hf
    | succ f2 =>
      rw [List.flatMap_cons, ipv4Loop_step n (h n (by simp)) f2,
        ih (fun x hx => h x (by simp [hx])) f2 (by simpa using hf)]
      rfl

theorem ipv4_flat_length_ge (ns : List Ipv4Network) :
    ns.length ≤ (ns.flatMap ipv4NetworkToBytes).length := by
  induction ns with
  | nil => simp
  | cons n t ih =>
    simp only [List.flatMap_cons, List.length_append, List.length_cons]
    have h1 : 1 ≤ (ipv4NetworkToBytes n).length := by
      simp [ipv4NetworkToBytes]
    omega

theorem ipv4_decode_encode_list (ns : List Ipv4Network)
    (h : ∀ n ∈ ns, wfNet n = true) :
    ipv4NetworkFromU8Slice (ns.flatMap ipv4NetworkToBytes) = some ns :=
  ipv4Loop_flat ns h _ (ipv4_flat_length_ge ns)

theorem ipv4_encode_length (n : Ipv4Network) (h : wfNet n = true) :
    (ipv4NetworkToBytes n).length = 1 + (n.plen + 7) / 8 := by
  obtain ⟨⟨a, b, c, d⟩, p⟩ := n
  simp only [wfNet, Bool.and_eq_true, decide_eq_true_eq] at h
  have hp : p ≤ 32 := h.1.1.1.1.1
  simp only [ipv4NetworkToBytes]
  split_ifs <;> simp <;> omega

/-- C8: for every Ipv4Network with mask length 0..32 whose host bits
beyond the mask are zero, the encoding is the mask-length byte plus
exactly ceil(plen/8) address octets, decoding the encoding returns the
network, and the decoder consumes a whole segment of concatenated
encodings, returning the route list. -/
theorem c8_ipv4_wire_roundtrip :
    (∀ n : Ipv4Network, wfNet n = true →
      (ipv4NetworkToBytes n).length = 1 + (n.plen + 7) / 8 ∧
      ipv4NetworkFromU8Slice (ipv4NetworkToBytes n) = some [n]) ∧
    (∀ ns : List Ipv4Network, (∀ n ∈ ns, wfNet n = true) →
      ipv4NetworkFromU8Slice (ns.flatMap ipv4NetworkToBytes) = some ns) := by
  constructor
  · intro n hn
    refine ⟨ipv4_encode_length n hn, ?_⟩
    have := ipv4_decode_encode_list [n] (by simpa using hn)
    simpa using this
  · exact ipv4_decode_encode_list

/-- Witness for C8 at 10.100.220.0/24 and at a two-route segment. -/
theorem c8_ipv4_wire_roundtrip_witness :
    ((ipv4NetworkToBytes ⟨⟨10, 100, 220, 0⟩, 24⟩).length = 1 + (24 + 7) / 8 ∧
      ipv4NetworkFromU8Slice (ipv4NetworkToBytes ⟨⟨10, 100, 220, 0⟩, 24⟩) =
        some [⟨⟨10, 100, 220, 0⟩, 24⟩]) ∧
    ipv4NetworkFromU8Slice
        ([⟨⟨10, 100, 220, 0⟩, 24⟩, ⟨⟨192, 168, 1, 128⟩, 25⟩].flatMap
          ipv4NetworkToBytes) =
      some [⟨⟨10, 100, 220, 0⟩, 24⟩, ⟨⟨192, 168, 1, 128⟩, 25⟩] :=
  ⟨c8_ipv4_wire_roundtrip.1 ⟨⟨10, 100, 220, 0⟩, 24⟩ (by decide),
   c8_ipv4_wire_roundtrip.2 _ (by decide)⟩

/-! ## C6: LocRib loop prevention -/

/-- C6: if no LocRib entry has an AsPath containing the local AS, then
after `install_from_adj_rib_in` (1) that is still true, (2) every
AdjRibIn route without the local AS in its AsPath has been inserted,
and (3) no route whose AsPath contains the local AS is present. -/
theorem c6_locrib_loop_prevention (loc : LocRib) (adjIn : Rib)
    (hb : ∀ e ∈ ribRoutes loc.rib, e.doesContainAs loc.localAsNumber = false) :
    (∀ e ∈ ribRoutes (locRibInstallFromAdjRibIn loc adjIn).rib,
        e.doesContainAs loc.localAsNumber = false) ∧
    (∀ e ∈ ribRoutes adjIn, e.doesContainAs loc.localAsNumber = false →
        e ∈ ribRoutes (locRibInstallFromAdjRibIn loc adjIn).rib) ∧
    (∀ e : RibEntry, e.doesContainAs loc.localAsNumber = true →
        e ∉ ribRoutes (locRibInstallFromAdjRibIn loc adjIn).rib) := by
  refine ⟨?_, ?_, ?_⟩
  · intro e he
    rw [locRibInstallFromAdjRibIn] at he
    simp only at he
    rw [mem_ribRoutes_foldl] at he
    rcases he with h | h
    · exact hb e h
    · rw [List.mem_filter] at h
      simpa using h.2
  · intro e he hfalse
    rw [locRibInstallFromAdjRibIn]
    simp only
    rw [mem_ribRoutes_foldl]
    exact Or.inr (List.mem_filter.mpr ⟨he, by simp [hfalse]⟩)
  · intro e htrue hmem
    rw [locRibInstallFromAdjRibIn] at hmem
    simp only at hmem
    rw [mem_ribRoutes_foldl] at hmem
    rcases hmem with h | h
    · exact absurd htrue (by simp [hb e h])
    · rw [List.mem_filter] at h
      simp [htrue] at h

/-- Witness for C6: a LocRib with one local route, an AdjRibIn with
one clean route and one route carrying the local AS 64512. -/
theorem c6_locrib_loop_prevention_witness :
    (⟨⟨⟨10, 0, 0, 0⟩, 8⟩, [.asPath (.asSequence [64513])]⟩ : RibEntry) ∈
      ribRoutes (locRibInstallFromAdjRibIn
        ⟨[(⟨⟨⟨10, 100, 220, 0⟩, 24⟩, [.asPath (.asSequence [])]⟩, .new)], 64512⟩
        [(⟨⟨⟨10, 0, 0, 0⟩, 8⟩, [.asPath (.asSequence [64513])]⟩, .new),
         (⟨⟨⟨10, 2, 0, 0⟩, 16⟩, [.asPath (.asSequence [64513, 64512])]⟩, .new)]).rib ∧
    (⟨⟨⟨10, 2, 0, 0⟩, 16⟩, [.asPath (.asSequence [64513, 64512])]⟩ : RibEntry) ∉
      ribRoutes (locRibInstallFromAdjRibIn
        ⟨[(⟨⟨⟨10, 100, 220, 0⟩, 24⟩, [.asPath (.asSequence [])]⟩, .new)], 64512⟩
        [(⟨⟨⟨10, 0, 0, 0⟩, 8⟩, [.asPath (.asSequence [64513])]⟩, .new),
         (⟨⟨⟨10, 2, 0, 0⟩, 16⟩, [.asPath (.asSequence [64513, 64512])]⟩, .new)]).rib :=
  ⟨(c6_locrib_loop_prevention _ _ (by decide)).2.1 _ (by decide) (by decide),
   (c6_locrib_loop_prevention _ _ (by decide)).2.2 _ (by decide)⟩

/-! ## C10: routes without an AsPath attribute -/

theorem firstAsPath_eq_none {l : List PathAttribute}
    (h : ∀ pa ∈ l, isAsPathAttr pa = false) : firstAsPath l = none := by
  induction l with
  | nil => rfl
  | cons p t ih =>
    cases p with
    | asPath a =>
      have hcontra := h (PathAttribute.asPath a) (by simp)
      simp [isAsPathAttr] at hcontra
    | origin o => exact ih fun pa hpa => h pa (by simp [hpa])
    | nextHop ip => exact ih fun pa hpa => h pa (by simp [hpa])
    | dontKnow v => exact ih fun pa hpa => h pa (by simp [hpa])

/-- C10: `does_contain_as` consults only the first AsPath attribute in
list order and returns false when none exists, so both RIB install
filters always admit an entry lacking an AsPath attribute. -/
theorem c10_missing_aspath_always_installed :
    (∀ (e : RibEntry) (asn : Nat),
        (∀ pa ∈ e.pathAttributes, isAsPathAttr pa = false) →
        e.doesContainAs asn = false) ∧
    (∀ (e : RibEntry) (asn : Nat),
        e.doesContainAs asn =
          (match firstAsPath e.pathAttributes with
           | some a => a.doesContain asn
           | none => false)) ∧
    (∀ (loc : LocRib) (adjIn : Rib) (e : RibEntry),
        (∀ pa ∈ e.pathAttributes, isAsPathAttr pa = false) →
        e ∈ ribRoutes adjIn →
        e ∈ ribRoutes (locRibInstallFromAdjRibIn loc adjIn).rib) ∧
    (∀ (out : Rib) (loc : LocRib) (remoteAs : Nat) (e : RibEntry),
        (∀ pa ∈ e.pathAttributes, isAsPathAttr pa = false) →
        e ∈ ribRoutes loc.rib →
        e ∈ ribRoutes (adjRibOutInstallFromLocRib out loc remoteAs)) := by
  have hnone : ∀ (e : RibEntry) (asn : Nat),
      (∀ pa ∈ e.pathAttributes, isAsPathAttr pa = false) →
      e.doesContainAs asn = false := by
    intro e asn h
    rw [RibEntry.doesContainAs, listDoesContainAs_eq_firstAsPath,
      firstAsPath_eq_none h]
  refine ⟨hnone, ?_, ?_, ?_⟩
  · intro e asn
    exact listDoesContainAs_eq_firstAsPath e.pathAttributes asn
  · intro loc adjIn e h hmem
    rw [locRibInstallFromAdjRibIn]
    simp only
    rw [mem_ribRoutes_foldl]
    exact Or.inr (List.mem_filter.mpr ⟨hmem, by simp [hnone e _ h]⟩)
  · intro out loc remoteAs e h hmem
    rw [adjRibOutInstallFromLocRib, mem_ribRoutes_foldl]
    exact Or.inr (List.mem_filter.mpr ⟨hmem, by simp [hnone e _ h]⟩)

/-- Witness for C10: an entry with Origin and NextHop but no AsPath is
reported AS-free and survives both install filters. -/
theorem c10_missing_aspath_always_installed_witness :
    (⟨⟨⟨10, 9, 0, 0⟩, 16⟩, [.origin .igp, .nextHop ⟨10, 0, 0, 1⟩]⟩ : RibEntry).doesContainAs
        64512 = false ∧
    (⟨⟨⟨10, 9, 0, 0⟩, 16⟩, [.origin .igp, .nextHop ⟨10, 0, 0, 1⟩]⟩ : RibEntry) ∈
      ribRoutes (locRibInstallFromAdjRibIn ⟨[], 64512⟩
        [(⟨⟨⟨10, 9, 0, 0⟩, 16⟩, [.origin .igp, .nextHop ⟨10, 0, 0, 1⟩]⟩, .new)]).rib ∧
    (⟨⟨⟨10, 9, 0, 0⟩, 16⟩, [.origin .igp, .nextHop ⟨10, 0, 0, 1⟩]⟩ : RibEntry) ∈
      ribRoutes (adjRibOutInstallFromLocRib []
        ⟨[(⟨⟨⟨10, 9, 0, 0⟩, 16⟩, [.origin .igp, .nextHop ⟨10, 0, 0, 1⟩]⟩, .new)], 64512⟩
        64513) :=
  ⟨c10_missing_aspath_always_installed.1 _ 64512 (by decide),
   c10_missing_aspath_always_installed.2.2.1 _ _ _ (by decide) (by decide),
   c10_missing_aspath_always_installed.2.2.2 _ _ 64513 _ (by decide) (by decide)⟩

/-! ## C3: the non-Established transition table -/

/-- C3: the non-Established rows of the transition table, exactly as
the event handler implements them. In Idle, ManualStart connects,
enqueues TcpConnectionConfirmed on success (fatal — modelled `none` —
otherwise) and moves to Connect; in Connect, TcpConnectionConfirmed
sends an Open built from the local AS and local IP and moves to
OpenSent; in OpenSent, BgpOpen sends a Keepalive and moves to
OpenConfirm; in OpenConfirm, KeepAliveMsg enqueues Established and
moves to Established; every other event in these states is a no-op. -/
theorem c3_non_established_transitions :
    (∀ p : PeerState, p.state = State.idle →
      handleEvent p Event.manualStart true =
        some ({ p with hasConnection := true,
                       eventQueue := p.eventQueue ++ [Event.tcpConnectionConfirmed],
                       state := State.connect }, [])) ∧
    (∀ p : PeerState, p.state = State.idle →
      handleEvent p Event.manualStart false = none) ∧
    (∀ (p : PeerState) (ok : Bool), p.state = State.connect →
      p.hasConnection = true →
      handleEvent p Event.tcpConnectionConfirmed ok =
        some ({ p with state := State.openSent },
          [Message.openMsg (openMessageNew p.config.localAs p.config.localIp)])) ∧
    (∀ (p : PeerState) (o : OpenMessage) (ok : Bool), p.state = State.openSent →
      p.hasConnection = true →
      handleEvent p (Event.bgpOpen o) ok =
        some ({ p with state := State.openConfirm },
          [Message.keepaliveMsg keepaliveMessageNew])) ∧
    (∀ (p : PeerState) (k : KeepaliveMessage) (ok : Bool),
      p.state = State.openConfirm →
      handleEvent p (Event.keepAliveMsg k) ok =
        some ({ p with state := State.established,
                       eventQueue := p.eventQueue ++ [Event.established] }, [])) ∧
    (∀ (p : PeerState) (e : Event) (ok : Bool), p.state ≠ State.established →
      nonEstablishedHandled p.state e = false →
      handleEvent p e ok = some (p, [])) := by
  refine ⟨?_, ?_, ?_, ?_, ?_, ?_⟩
  · intro p hs; simp [handleEvent, hs]
  · intro p hs; simp [handleEvent, hs]
  · intro p ok hs hc; simp [handleEvent, hs, hc]
  · intro p o ok hs hc; simp [handleEvent, hs, hc]
  · intro p k ok hs; simp [handleEvent, hs]
  · intro p e ok hs hn
    cases hst : p.state <;> cases e <;>
      simp_all [handleEvent, nonEstablishedHandled]

/-- Witness for C3: one concrete peer per row, plus a no-op case. -/
theorem c3_non_established_transitions_witness :
    handleEvent
        (⟨State.idle, [], false, ⟨64512, ⟨127, 0, 0, 1⟩, 64513⟩, ⟨[], 64512⟩, [], []⟩ :
          PeerState) Event.manualStart true =
      some (⟨State.connect, [Event.tcpConnectionConfirmed], true,
        ⟨64512, ⟨127, 0, 0, 1⟩, 64513⟩, ⟨[], 64512⟩, [], []⟩, []) ∧
    handleEvent
        (⟨State.connect, [], true, ⟨64512, ⟨127, 0, 0, 1⟩, 64513⟩, ⟨[], 64512⟩, [], []⟩ :
          PeerState) Event.tcpConnectionConfirmed true =
      some (⟨State.openSent, [], true, ⟨64512, ⟨127, 0, 0, 1⟩, 64513⟩, ⟨[], 64512⟩, [], []⟩,
        [Message.openMsg (openMessageNew 64512 ⟨127, 0, 0, 1⟩)]) ∧
    handleEvent
        (⟨State.openSent, [], true, ⟨64512, ⟨127, 0, 0, 1⟩, 64513⟩, ⟨[], 64512⟩, [], []⟩ :
          PeerState) (Event.bgpOpen (openMessageNew 64513 ⟨127, 0, 0, 2⟩)) true =
      some (⟨State.openConfirm, [], true, ⟨64512, ⟨127, 0, 0, 1⟩, 64513⟩, ⟨[], 64512⟩, [], []⟩,
        [Message.keepaliveMsg keepaliveMessageNew]) ∧
    handleEvent
        (⟨State.openConfirm, [], true, ⟨64512, ⟨127, 0, 0, 1⟩, 64513⟩, ⟨[], 64512⟩, [], []⟩ :
          PeerState) (Event.keepAliveMsg keepaliveMessageNew) true =
      some (⟨State.established, [Event.established], true,
        ⟨64512, ⟨127, 0, 0, 1⟩, 64513⟩, ⟨[], 64512⟩, [], []⟩, []) ∧
    handleEvent
        (⟨State.idle, [], false, ⟨64512, ⟨127, 0, 0, 1⟩, 64513⟩, ⟨[], 64512⟩, [], []⟩ :
          PeerState) Event.locRibChanged true =
      some ((⟨State.idle, [], false, ⟨64512, ⟨127, 0, 0, 1⟩, 64513⟩, ⟨[], 64512⟩, [], []⟩ :
        PeerState), []) :=
  ⟨c3_non_established_transitions.1 _ rfl,
   c3_non_established_transitions.2.2.1 _ true rfl rfl,
   c3_non_established_transitions.2.2.2.1 _ _ true rfl rfl,
   c3_non_established_transitions.2.2.2.2.1 _ _ true rfl,
   c3_non_established_transitions.2.2.2.2.2 _ _ true (by decide) (by decide)⟩

/-! ## C2: order of the two tick phases -/

/-- C2 counterexample: the claim says a tick drains the inbound
message first and handles a queued event second. For a peer in
OpenSent with an empty queue and a pending Open, the spec-order tick
(`specTick`) would handle the drained BgpOpen within the same tick —
sending a Keepalive and reaching OpenConfirm — but `Peer::next`
dequeues first (finding nothing) and only then drains, leaving the
peer in OpenSent with the BgpOpen still queued and nothing sent. -/
theorem c2_drain_first_counterexample :
    peerNext
        (⟨State.openSent, [], true, ⟨64512, ⟨127, 0, 0, 1⟩, 64513⟩, ⟨[], 64512⟩, [], []⟩ :
          PeerState)
        (some (Message.openMsg (openMessageNew 64513 ⟨127, 0, 0, 2⟩))) true ≠
      specTick
        (⟨State.openSent, [], true, ⟨64512, ⟨127, 0, 0, 1⟩, 64513⟩, ⟨[], 64512⟩, [], []⟩ :
          PeerState)
        (some (Message.openMsg (openMessageNew 64513 ⟨127, 0, 0, 2⟩))) true := by
  decide

/-- C2 amended: one call to `Peer::next` performs up to two actions in
this fixed order — first, if the event queue is non-empty, one event
is dequeued and the transition table applied; second, if a Connection
exists after that, a pending message is drained and its matching event
enqueued (Open to BgpOpen, Keepalive to KeepAliveMsg, Update to
UpdateMsg). In particular, with an empty queue the drained message is
only enqueued, never handled in the same tick. -/
theorem c2_event_handling_precedes_drain :
    (∀ (p : PeerState) (m : Message) (ok : Bool), p.eventQueue = [] →
      p.hasConnection = true →
      peerNext p (some m) ok = some ({ p with eventQueue := [messageToEvent m] }, [])) ∧
    (∀ (p : PeerState) (e : Event) (rest : List Event) (ok : Bool),
      p.eventQueue = e :: rest →
      peerNext p none ok = handleEvent { p with eventQueue := rest } e ok) ∧
    (∀ (p : PeerState) (e : Event) (rest : List Event) (m : Message) (ok : Bool),
      p.eventQueue = e :: rest →
      peerNext p (some m) ok =
        (handleEvent { p with eventQueue := rest } e ok).map
          (fun r => (if r.1.hasConnection then handleMessage r.1 m else r.1, r.2))) ∧
    (∀ o : OpenMessage, messageToEvent (Message.openMsg o) = Event.bgpOpen o) ∧
    (∀ k : KeepaliveMessage,
      messageToEvent (Message.keepaliveMsg k) = Event.keepAliveMsg k) ∧
    (∀ u : UpdateMessage,
      messageToEvent (Message.updateMsg u) = Event.updateMsg u) := by
  refine ⟨?_, ?_, ?_, fun _ => rfl, fun _ => rfl, fun _ => rfl⟩
  · intro p m ok hq hc
    simp [peerNext, hq, hc, handleMessage]
  · intro p e rest ok hq
    simp only [peerNext, hq]
    cases h : handleEvent { p with eventQueue := rest } e ok with
    | none => rfl
    | some r =>
      obtain ⟨p1, sent⟩ := r
      by_cases hc : p1.hasConnection = true <;> simp [hc]
  · intro p e rest m ok hq
    simp only [peerNext, hq]
    cases h : handleEvent { p with eventQueue := rest } e ok with
    | none => rfl
    | some r =>
      obtain ⟨p1, sent⟩ := r
      by_cases hc : p1.hasConnection = true <;> simp [hc]

/-- Witness for C2 (amended): a tick of an Established peer with an
empty queue and a pending Keepalive enqueues KeepAliveMsg and handles
nothing; a tick with a queued event and no pending message handles
just that event. -/
theorem c2_event_handling_precedes_drain_witness :
    peerNext
        (⟨State.established, [], true, ⟨64512, ⟨127, 0, 0, 1⟩, 64513⟩, ⟨[], 64512⟩, [], []⟩ :
          PeerState) (some (Message.keepaliveMsg keepaliveMessageNew)) true =
      some (⟨State.established, [Event.keepAliveMsg keepaliveMessageNew], true,
        ⟨64512, ⟨127, 0, 0, 1⟩, 64513⟩, ⟨[], 64512⟩, [], []⟩, []) ∧
    peerNext
        (⟨State.openConfirm, [Event.keepAliveMsg keepaliveMessageNew], true,
          ⟨64512, ⟨127, 0, 0, 1⟩, 64513⟩, ⟨[], 64512⟩, [], []⟩ : PeerState) none true =
      handleEvent
        (⟨State.openConfirm, [], true, ⟨64512, ⟨127, 0, 0, 1⟩, 64513⟩, ⟨[], 64512⟩, [], []⟩ :
          PeerState) (Event.keepAliveMsg keepaliveMessageNew) true :=
  ⟨c2_event_handling_precedes_drain.1 _ _ true rfl rfl,
   c2_event_handling_precedes_drain.2.1 _ _ [] true rfl⟩

/-! ## C7: the dirty-flag-then-drain discipline in Established -/

/-- C7: in Established, each RIB-flow event (Established /
LocRibChanged, UpdateMsg, AdjRibInChanged) enqueues at most one
downstream Changed event — exactly when the install left the target
RIB with a New route; when it enqueues, every status in that RIB is
immediately reset to Unchanged, and when the install leaves no New
route nothing is enqueued and the RIB keeps the plain install result,
halting the cascade. -/
theorem c7_established_cascade :
    ∀ (p : PeerState) (ok : Bool), p.state = State.established →
    ((∀ ev : Event, ev = Event.established ∨ ev = Event.locRibChanged →
      ∃ p1, handleEvent p ev ok = some (p1, []) ∧
        p1.eventQueue = p.eventQueue ++
          (if ribDoesContainNewRoute
              (adjRibOutInstallFromLocRib p.adjRibOut p.locRib p.config.remoteAs)
           then [Event.adjRibOutChanged] else []) ∧
        (ribDoesContainNewRoute
            (adjRibOutInstallFromLocRib p.adjRibOut p.locRib p.config.remoteAs) = true →
          ∀ q ∈ p1.adjRibOut, q.2 = RibEntryStatus.unChanged) ∧
        (ribDoesContainNewRoute
            (adjRibOutInstallFromLocRib p.adjRibOut p.locRib p.config.remoteAs) = false →
          p1.eventQueue = p.eventQueue ∧
          p1.adjRibOut = adjRibOutInstallFromLocRib p.adjRibOut p.locRib p.config.remoteAs)) ∧
    (∀ u : UpdateMessage,
      ∃ p1, handleEvent p (Event.updateMsg u) ok = some (p1, []) ∧
        p1.eventQueue = p.eventQueue ++
          (if ribDoesContainNewRoute (adjRibInInstallFromUpdate p.adjRibIn u)
           then [Event.adjRibInChanged] else []) ∧
        (ribDoesContainNewRoute (adjRibInInstallFromUpdate p.adjRibIn u) = true →
          ∀ q ∈ p1.adjRibIn, q.2 = RibEntryStatus.unChanged) ∧
        (ribDoesContainNewRoute (adjRibInInstallFromUpdate p.adjRibIn u) = false →
          p1.eventQueue = p.eventQueue ∧
          p1.adjRibIn = adjRibInInstallFromUpdate p.adjRibIn u)) ∧
    (∃ p1, handleEvent p Event.adjRibInChanged ok = some (p1, []) ∧
        p1.eventQueue = p.eventQueue ++
          (if ribDoesContainNewRoute (locRibInstallFromAdjRibIn p.locRib p.adjRibIn).rib
           then [Event.locRibChanged] else []) ∧
        (ribDoesContainNewRoute (locRibInstallFromAdjRibIn p.locRib p.adjRibIn).rib = true →
          ∀ q ∈ p1.locRib.rib, q.2 = RibEntryStatus.unChanged) ∧
        (ribDoesContainNewRoute (locRibInstallFromAdjRibIn p.locRib p.adjRibIn).rib = false →
          p1.eventQueue = p.eventQueue ∧
          p1.locRib = locRibInstallFromAdjRibIn p.locRib p.adjRibIn))) := by
  intro p ok hs
  refine ⟨?_, ?_, ?_⟩
  · intro ev hev
    have hgo : handleEvent p ev ok =
        (if ribDoesContainNewRoute
            (adjRibOutInstallFromLocRib p.adjRibOut p.locRib p.config.remoteAs) then
          some ({ p with
            adjRibOut := ribUpdateToAllUnchanged
              (adjRibOutInstallFromLocRib p.adjRibOut p.locRib p.config.remoteAs),
            eventQueue := p.eventQueue ++ [Event.adjRibOutChanged] }, [])
        else
          some ({ p with
            adjRibOut := adjRibOutInstallFromLocRib p.adjRibOut p.locRib p.config.remoteAs },
            [])) := by
      rcases hev with rfl | rfl <;> simp only [handleEvent, hs]
    by_cases hnew : ribDoesContainNewRoute
        (adjRibOutInstallFromLocRib p.adjRibOut p.locRib p.config.remoteAs) = true
    · refine ⟨{ p with
          adjRibOut := ribUpdateToAllUnchanged
            (adjRibOutInstallFromLocRib p.adjRibOut p.locRib p.config.remoteAs),
          eventQueue := p.eventQueue ++ [Event.adjRibOutChanged] }, ?_, ?_, ?_, ?_⟩
      · rw [hgo]
        simp [hnew]
      · simp [hnew]
      · intro _ q hq
        exact mem_ribUpdateToAllUnchanged hq
      · intro hfalse
        exact absurd hnew (by simp [hfalse])
    · refine ⟨{ p with
          adjRibOut := adjRibOutInstallFromLocRib p.adjRibOut p.locRib p.config.remoteAs },
          ?_, ?_, ?_, fun _ => ⟨rfl, rfl⟩⟩
      · rw [hgo]
        simp [hnew]
      · simp [hnew]
      · intro htrue
        exact absurd htrue hnew
  · intro u
    have hgo : handleEvent p (Event.updateMsg u) ok =
        (if ribDoesContainNewRoute (adjRibInInstallFromUpdate p.adjRibIn u) then
          some ({ p with
            adjRibIn := ribUpdateToAllUnchanged (adjRibInInstallFromUpdate p.adjRibIn u),
            eventQueue := p.eventQueue ++ [Event.adjRibInChanged] }, [])
        else
          some ({ p with adjRibIn := adjRibInInstallFromUpdate p.adjRibIn u }, [])) := by
      simp only [handleEvent, hs]
    by_cases hnew : ribDoesContainNewRoute (adjRibInInstallFromUpdate p.adjRibIn u) = true
    · refine ⟨{ p with
          adjRibIn := ribUpdateToAllUnchanged (adjRibInInstallFromUpdate p.adjRibIn u),
          eventQueue := p.eventQueue ++ [Event.adjRibInChanged] }, ?_, ?_, ?_, ?_⟩
      · rw [hgo]
        simp [hnew]
      · simp [hnew]
      · intro _ q hq
        exact mem_ribUpdateToAllUnchanged hq
      · intro hfalse
        exact absurd hnew (by simp [hfalse])
    · refine ⟨{ p with adjRibIn := adjRibInInstallFromUpdate p.adjRibIn u },
          ?_, ?_, ?_, fun _ => ⟨rfl, rfl⟩⟩
      · rw [hgo]
        simp [hnew]
      · simp [hnew]
      · intro htrue
        exact absurd htrue hnew
  · have hgo : handleEvent p Event.adjRibInChanged ok =
        (if ribDoesContainNewRoute (locRibInstallFromAdjRibIn p.locRib p.adjRibIn).rib then
          some ({ p with
            locRib := { locRibInstallFromAdjRibIn p.locRib p.adjRibIn with
              rib := ribUpdateToAllUnchanged
                (locRibInstallFromAdjRibIn p.locRib p.adjRibIn).rib },
            eventQueue := p.eventQueue ++ [Event.locRibChanged] }, [])
        else
          some ({ p with locRib := locRibInstallFromAdjRibIn p.locRib p.adjRibIn }, [])) := by
      simp only [handleEvent, hs]
    by_cases hnew : ribDoesContainNewRoute
        (locRibInstallFromAdjRibIn p.locRib p.adjRibIn).rib = true
    · refine ⟨{ p with
          locRib := { locRibInstallFromAdjRibIn p.locRib p.adjRibIn with
            rib := ribUpdateToAllUnchanged
              (locRibInstallFromAdjRibIn p.locRib p.adjRibIn).rib },
          eventQueue := p.eventQueue ++ [Event.locRibChanged] }, ?_, ?_, ?_, ?_⟩
      · rw [hgo]
        simp [hnew]
      · simp [hnew]
      · intro _ q hq
        exact mem_ribUpdateToAllUnchanged hq
      · intro hfalse
        exact absurd hnew (by simp [hfalse])
    · refine ⟨{ p with locRib := locRibInstallFromAdjRibIn p.locRib p.adjRibIn },
          ?_, ?_, ?_, fun _ => ⟨rfl, rfl⟩⟩
      · rw [hgo]
        simp [hnew]
      · simp [hnew]
      · intro htrue
        exact absurd htrue hnew

/-- Witness for C7: an Established peer with empty RIBs handling an
Update that carries one route. -/
theorem c7_established_cascade_witness :
    ∃ p1, handleEvent
        (⟨State.established, [], true, ⟨64512, ⟨127, 0, 0, 1⟩, 64513⟩, ⟨[], 64512⟩, [], []⟩ :
          PeerState)
        (Event.updateMsg (updateMessageNew
          [.origin .igp, .asPath (.asSequence [64513]), .nextHop ⟨10, 0, 0, 3⟩]
          [⟨⟨10, 100, 220, 0⟩, 24⟩] [])) true = some (p1, []) ∧
      p1.eventQueue =
        (⟨State.established, [], true, ⟨64512, ⟨127, 0, 0, 1⟩, 64513⟩, ⟨[], 64512⟩, [], []⟩ :
          PeerState).eventQueue ++
          (if ribDoesContainNewRoute (adjRibInInstallFromUpdate
              (⟨State.established, [], true, ⟨64512, ⟨127, 0, 0, 1⟩, 64513⟩, ⟨[], 64512⟩, [], []⟩ :
                PeerState).adjRibIn
              (updateMessageNew
                [.origin .igp, .asPath (.asSequence [64513]), .nextHop ⟨10, 0, 0, 3⟩]
                [⟨⟨10, 100, 220, 0⟩, 24⟩] []))
           then [Event.adjRibInChanged] else []) ∧
      (ribDoesContainNewRoute (adjRibInInstallFromUpdate
          (⟨State.established, [], true, ⟨64512, ⟨127, 0, 0, 1⟩, 64513⟩, ⟨[], 64512⟩, [], []⟩ :
            PeerState).adjRibIn
          (updateMessageNew
            [.origin .igp, .asPath (.asSequence [64513]), .nextHop ⟨10, 0, 0, 3⟩]
            [⟨⟨10, 100, 220, 0⟩, 24⟩] [])) = true →
        ∀ q ∈ p1.adjRibIn, q.2 = RibEntryStatus.unChanged) ∧
      (ribDoesContainNewRoute (adjRibInInstallFromUpdate
          (⟨State.established, [], true, ⟨64512, ⟨127, 0, 0, 1⟩, 64513⟩, ⟨[], 64512⟩, [], []⟩ :
            PeerState).adjRibIn
          (updateMessageNew
            [.origin .igp, .asPath (.asSequence [64513]), .nextHop ⟨10, 0, 0, 3⟩]
            [⟨⟨10, 100, 220, 0⟩, 24⟩] [])) = false →
        p1.eventQueue =
          (⟨State.established, [], true, ⟨64512, ⟨127, 0, 0, 1⟩, 64513⟩, ⟨[], 64512⟩, [], []⟩ :
            PeerState).eventQueue ∧
        p1.adjRibIn = adjRibInInstallFromUpdate
          (⟨State.established, [], true, ⟨64512, ⟨127, 0, 0, 1⟩, 64513⟩, ⟨[], 64512⟩, [], []⟩ :
            PeerState).adjRibIn
          (updateMessageNew
            [.origin .igp, .asPath (.asSequence [64513]), .nextHop ⟨10, 0, 0, 3⟩]
            [⟨⟨10, 100, 220, 0⟩, 24⟩] [])) :=
  (c7_established_cascade _ true rfl).2.1 _

/-! ## C4: LocRib to AdjRibOut to UpdateMessage -/

theorem addToGroup_preserves {gs : List (List PathAttribute × List Ipv4Network)}
    {e : RibEntry} {k : List PathAttribute} {x : Ipv4Network}
    (h : ∃ nets, (k, nets) ∈ gs ∧ x ∈ nets) :
    ∃ nets2, (k, nets2) ∈ addToGroup gs e ∧ x ∈ nets2 := by
  obtain ⟨nets, hmem, hx⟩ := h
  unfold addToGroup
  by_cases hany : gs.any (fun g => g.1 = e.pathAttributes) = true
  · simp only [hany, if_true]
    by_cases hk : k = e.pathAttributes
    · exact ⟨nets ++ [e.networkAddress],
        List.mem_map.mpr ⟨(k, nets), hmem, by simp [hk]⟩, by simp [hx]⟩
    · exact ⟨nets, List.mem_map.mpr ⟨(k, nets), hmem, by simp [hk]⟩, hx⟩
  · simp only [hany, if_false]
    exact ⟨nets, by simp [hmem], hx⟩

theorem addToGroup_self (gs : List (List PathAttribute × List Ipv4Network))
    (e : RibEntry) :
    ∃ nets, (e.pathAttributes, nets) ∈ addToGroup gs e ∧
      e.networkAddress ∈ nets := by
  unfold addToGroup
  by_cases hany : gs.any (fun g => g.1 = e.pathAttributes) = true
  · have hany2 := hany
    simp only [List.any_eq_true, decide_eq_true_eq] at hany2
    obtain ⟨g0, hg0, hkey⟩ := hany2
    refine ⟨g0.2 ++ [e.networkAddress], ?_, by simp⟩
    simp only [hany, if_true]
    exact List.mem_map.mpr ⟨g0, hg0, by simp [hkey]⟩
  · exact ⟨[e.networkAddress], by simp [hany], by simp⟩

theorem foldl_addToGroup_complete (entries : List RibEntry) :
    ∀ (gs : List (List PathAttribute × List Ipv4Network)) (r : RibEntry),
    (r ∈ entries ∨
      ∃ nets, (r.pathAttributes, nets) ∈ gs ∧ r.networkAddress ∈ nets) →
    ∃ nets, (r.pathAttributes, nets) ∈ entries.foldl addToGroup gs ∧
      r.networkAddress ∈ nets := by
  induction entries with
  | nil =>
    intro gs r h
    rcases h with h | h
    · simp at h
    · exact h
  | cons a t ih =>
    intro gs r h
    apply ih
    rcases h with h | h
    · rcases List.mem_cons.mp h with rfl | hmem
      · exact Or.inr (addToGroup_self gs r)
      · exact Or.inl hmem
    · exact Or.inr (addToGroup_preserves h)

theorem mem_createUpdateMessages (out : Rib) (localIp : Ipv4Addr)
    (localAs : Nat) (r : RibEntry) (hr : r ∈ ribRoutes out) :
    ∃ nets,
      updateMessageNew (r.pathAttributes.map (rewriteAttribute localIp localAs))
          nets [] ∈ createUpdateMessages out localIp localAs ∧
      r.networkAddress ∈ nets := by
  obtain ⟨nets, hg, hx⟩ :=
    foldl_addToGroup_complete (ribRoutes out) [] r (Or.inl hr)
  exact ⟨nets, List.mem_map.mpr ⟨(r.pathAttributes, nets), hg, rfl⟩, hx⟩

theorem rewrite_nextHop_all {pas : List PathAttribute} {localIp : Ipv4Addr}
    {localAs : Nat} {ip : Ipv4Addr}
    (h : PathAttribute.nextHop ip ∈ pas.map (rewriteAttribute localIp localAs)) :
    ip = localIp := by
  obtain ⟨q, _, heq⟩ := List.mem_map.mp h
  cases q with
  | nextHop ip0 =>
    simp only [rewriteAttribute, PathAttribute.nextHop.injEq] at heq
    exact heq.symm
  | origin o => simp [rewriteAttribute] at heq
  | asPath a => simp [rewriteAttribute] at heq
  | dontKnow v => simp [rewriteAttribute] at heq

theorem firstAsPath_map_rewrite (pas : List PathAttribute) (localIp : Ipv4Addr)
    (localAs : Nat) :
    firstAsPath (pas.map (rewriteAttribute localIp localAs)) =
      (firstAsPath pas).map (fun a => a.push localAs) := by
  induction pas with
  | nil => rfl
  | cons q t ih => cases q <;> simp [rewriteAttribute, firstAsPath, ih]

theorem count_btreeInsert_of_not_mem {l : List Nat} {a : Nat} (h : a ∉ l) :
    (btreeInsert a l).count a = l.count a + 1 := by
  induction l with
  | nil => simp [btreeInsert]
  | cons b t ih =>
    have hab : a ≠ b := by
      intro hcontra
      exact h (by simp [hcontra])
    have hat : a ∉ t := fun hcontra => h (by simp [hcontra])
    simp only [btreeInsert]
    by_cases hlt : a < b
    · simp [hlt, List.count_cons, hab]
    · simp [hlt, hab, List.count_cons, ih hat]

theorem asPathCount_push_of_not_contain {a : AsPath} {asn : Nat}
    (h : a.doesContain asn = false) :
    asPathCount asn (a.push asn) = asPathCount asn a + 1 := by
  cases a with
  | asSequence l => simp [AsPath.push, asPathCount]
  | asSet l =>
    simp only [AsPath.push, asPathCount]
    apply count_btreeInsert_of_not_mem
    simpa [AsPath.doesContain] using h

theorem mem_install_from_loc_rib_cases {out : Rib} {loc : LocRib}
    {remoteAs : Nat} {r : RibEntry}
    (hr : r ∈ ribRoutes (adjRibOutInstallFromLocRib out loc remoteAs)) :
    r ∈ ribRoutes out ∨
      (r ∈ ribRoutes loc.rib ∧ r.doesContainAs remoteAs = false) := by
  rw [adjRibOutInstallFromLocRib, mem_ribRoutes_foldl] at hr
  rcases hr with h | h
  · exact Or.inl h
  · rw [List.mem_filter] at h
    exact Or.inr ⟨h.1, by simpa using h.2⟩

/-- C4: a RibEntry reaching AdjRibOut through the pipeline — an
AdjRibOut populated by `install_from_loc_rib` from a LocRib none of
whose entries carries the local AS, on top of previous pipeline
contents with the same property (the AdjRibOut starts empty when the
Peer is created) — appears in the NLRI of one message of
`create_update_messages(local_ip, local_as)`; that message carries
only NextHop attributes equal to `local_ip`, and its (first) AsPath is
the entry's AsPath with `local_as` pushed, containing `local_as`
exactly once more than the entry's AsPath did. -/
theorem c4_update_send_rewrites (out : Rib) (loc : LocRib)
    (remoteAs localAs : Nat) (localIp : Ipv4Addr)
    (hout : ∀ e ∈ ribRoutes out, e.doesContainAs localAs = false)
    (hloc : ∀ e ∈ ribRoutes loc.rib, e.doesContainAs localAs = false)
    (r : RibEntry)
    (hr : r ∈ ribRoutes (adjRibOutInstallFromLocRib out loc remoteAs)) :
    ∃ msg ∈ createUpdateMessages (adjRibOutInstallFromLocRib out loc remoteAs)
        localIp localAs,
      r.networkAddress ∈ msg.networkLayerReachabilityInformation ∧
      (∀ ip, PathAttribute.nextHop ip ∈ msg.pathAttributes → ip = localIp) ∧
      (∀ a, firstAsPath r.pathAttributes = some a →
        firstAsPath msg.pathAttributes = some (a.push localAs) ∧
        asPathCount localAs (a.push localAs) = asPathCount localAs a + 1) := by
  obtain ⟨nets, hmsg, hx⟩ := mem_createUpdateMessages _ localIp localAs r hr
  refine ⟨_, hmsg, ?_, ?_, ?_⟩
  · simpa [updateMessageNew] using hx
  · intro ip hip
    rw [show (updateMessageNew
        (r.pathAttributes.map (rewriteAttribute localIp localAs)) nets
        []).pathAttributes =
      r.pathAttributes.map (rewriteAttribute localIp localAs) from rfl] at hip
    exact rewrite_nextHop_all hip
  · intro a ha
    constructor
    · rw [show (updateMessageNew
          (r.pathAttributes.map (rewriteAttribute localIp localAs)) nets
          []).pathAttributes =
        r.pathAttributes.map (rewriteAttribute localIp localAs) from rfl]
      rw [firstAsPath_map_rewrite, ha]
      rfl
    · have hnc : r.doesContainAs localAs = false := by
        rcases mem_install_from_loc_rib_cases hr with h | h
        · exact hout r h
        · exact hloc r h.1
      rw [RibEntry.doesContainAs, listDoesContainAs_eq_firstAsPath, ha] at hnc
      exact asPathCount_push_of_not_contain hnc

/-- Witness for C4: the locally originated route of the source test
(10.100.220.0/24 with empty AsSequence) pushed out at AS 64513 /
10.200.100.3. -/
theorem c4_update_send_rewrites_witness :
    ∃ msg ∈ createUpdateMessages
        (adjRibOutInstallFromLocRib ribEmpty
          ⟨[(⟨⟨⟨10, 100, 220, 0⟩, 24⟩,
              [.origin .igp, .asPath (.asSequence []), .nextHop ⟨10, 200, 100, 3⟩]⟩,
            .new)], 64513⟩ 64512)
        ⟨10, 200, 100, 3⟩ 64513,
      (⟨⟨⟨10, 100, 220, 0⟩, 24⟩,
          [.origin .igp, .asPath (.asSequence []), .nextHop ⟨10, 200, 100, 3⟩]⟩ :
        RibEntry).networkAddress ∈ msg.networkLayerReachabilityInformation ∧
      (∀ ip, PathAttribute.nextHop ip ∈ msg.pathAttributes →
        ip = ⟨10, 200, 100, 3⟩) ∧
      (∀ a, firstAsPath (⟨⟨⟨10, 100, 220, 0⟩, 24⟩,
            [.origin .igp, .asPath (.asSequence []), .nextHop ⟨10, 200, 100, 3⟩]⟩ :
          RibEntry).pathAttributes = some a →
        firstAsPath msg.pathAttributes = some (a.push 64513) ∧
        asPathCount 64513 (a.push 64513) = asPathCount 64513 a + 1) :=
  c4_update_send_rewrites ribEmpty
    ⟨[(⟨⟨⟨10, 100, 220, 0⟩, 24⟩,
        [.origin .igp, .asPath (.asSequence []), .nextHop ⟨10, 200, 100, 3⟩]⟩,
      .new)], 64513⟩ 64512 64513 ⟨10, 200, 100, 3⟩ (by decide) (by decide) _
    (by decide)

/-! ## Supporting development: the round trips that DO hold

The spec round-trip invariant fails only through the two slips
documented at C1 and C5. The theorems below show the codec is correct
everywhere else: Open, Keepalive, and Update messages whose path
attributes are known kinds with one-octet value lengths decode back to
themselves. -/

theorem u16FromBytes_split {v : Nat} (h : v < 65536) :
    u16FromBytes (v / 256 % 256) (v % 256) = v := by
  simp only [u16FromBytes]
  omega

theorem asListFromBytes_flat (l : List Nat) (h : ∀ x ∈ l, x < 65536) :
    asListFromBytes (l.flatMap (fun a => u16ToBytes (a % 65536))) = some l := by
  induction l with
  | nil => rfl
  | cons a t ih =>
    rw [List.flatMap_cons,
      show u16ToBytes (a % 65536) ++ (t.flatMap fun x => u16ToBytes (x % 65536)) =
        (a % 65536 / 256 % 256) :: (a % 65536 % 256) ::
          (t.flatMap fun x => u16ToBytes (x % 65536)) from rfl,
      asListFromBytes, ih (fun x hx => h x (by simp [hx]))]
    have ha : a < 65536 := h a (by simp)
    simp only [Option.map_some, Option.map_some', Option.some.injEq,
      List.cons.injEq, u16FromBytes, and_true, Nat.mod_eq_of_lt ha]
    omega

theorem strictSorted_cons_lt {x : Nat} {rest : List Nat}
    (h : strictSorted (x :: rest) = true) : ∀ z ∈ rest, x < z := by
  induction rest generalizing x with
  | nil => simp
  | cons b t ih =>
    simp only [strictSorted, Bool.and_eq_true, decide_eq_true_eq] at h
    intro z hz
    rcases List.mem_cons.mp hz with rfl | hzt
    · exact h.1
    · exact lt_trans h.1 (ih h.2 z hzt)

theorem strictSorted_tail {x : Nat} {rest : List Nat}
    (h : strictSorted (x :: rest) = true) : strictSorted rest = true := by
  cases rest with
  | nil => rfl
  | cons b t =>
    simp only [strictSorted, Bool.and_eq_true] at h
    exact h.2

theorem strictSorted_split_lt {xs ys : List Nat} {y : Nat}
    (h : strictSorted (xs ++ y :: ys) = true) : ∀ x ∈ xs, x < y := by
  induction xs with
  | nil => simp
  | cons x0 t ih =>
    intro x hx
    rcases List.mem_cons.mp hx with rfl | hxt
    · exact strictSorted_cons_lt h y (by simp)
    · exact ih (strictSorted_tail h) x hxt

theorem btreeInsert_append {acc : List Nat} {a : Nat} (h : ∀ x ∈ acc, x < a) :
    btreeInsert a acc = acc ++ [a] := by
  induction acc with
  | nil => rfl
  | cons b t ih =>
    have hb : b < a := h b (by simp)
    simp only [btreeInsert, if_neg (by omega : ¬ a < b),
      if_neg (by omega : ¬ a = b)]
    rw [ih (fun x hx => h x (by simp [hx]))]
    simp

theorem btreeFold_sorted_aux (l : List Nat) :
    ∀ acc, strictSorted (acc ++ l) = true →
      l.foldl (fun s a => btreeInsert a s) acc = acc ++ l := by
  induction l with
  | nil =>
    intro acc _
    simp
  | cons a t ih =>
    intro acc h
    simp only [List.foldl_cons]
    rw [btreeInsert_append (strictSorted_split_lt h)]
    have h2 : strictSorted ((acc ++ [a]) ++ t) = true := by
      rw [List.append_assoc]
      simpa using h
    simpa [List.append_assoc] using ih (acc ++ [a]) h2

theorem btreeFold_sorted {l : List Nat} (h : strictSorted l = true) :
    l.foldl (fun s a => btreeInsert a s) [] = l := by
  simpa using btreeFold_sorted_aux l [] (by simpa using h)

theorem flat_u16_length (l : List Nat) :
    (l.flatMap (fun a => u16ToBytes (a % 65536))).length = 2 * l.length := by
  induction l with
  | nil => rfl
  | cons a t ih =>
    simp only [List.flatMap_cons, List.length_append, List.length_cons, ih]
    simp only [u16ToBytes, List.length_cons, List.length_nil]
    omega

theorem asPathToBytes_length (a : AsPath) :
    (asPathToBytes a).length = a.bytesLen := by
  cases a <;>
    simp only [asPathToBytes, AsPath.bytesLen, List.length_cons,
      flat_u16_length] <;> omega

theorem asPath_value_roundtrip {a : AsPath} (h : wfAsPath a = true) :
    asPathTryFrom (asPathToBytes a) = some a := by
  cases a with
  | asSequence l =>
    simp only [wfAsPath, Bool.and_eq_true, List.all_eq_true,
      decide_eq_true_eq] at h
    rw [show asPathTryFrom (asPathToBytes (.asSequence l)) =
        (asListFromBytes (l.flatMap fun x => u16ToBytes (x % 65536))).map
          AsPath.asSequence from rfl,
      asListFromBytes_flat l h.1]
    rfl
  | asSet l =>
    simp only [wfAsPath, Bool.and_eq_true, List.all_eq_true,
      decide_eq_true_eq] at h
    rw [show asPathTryFrom (asPathToBytes (.asSet l)) =
        (asListFromBytes (l.flatMap fun x => u16ToBytes (x % 65536))).map
          (fun l2 => AsPath.asSet (l2.foldl (fun s a => btreeInsert a s) []))
        from rfl,
      asListFromBytes_flat l h.1.1]
    show some (AsPath.asSet (l.foldl (fun s a => btreeInsert a s) [])) =
      some (AsPath.asSet l)
    rw [btreeFold_sorted h.2]

theorem wfAsPath_bytesLen_le {a : AsPath} (h : wfAsPath a = true) :
    a.bytesLen ≤ 255 := by
  cases a with
  | asSequence l =>
    simp only [wfAsPath, Bool.and_eq_true, decide_eq_true_eq] at h
    exact h.2
  | asSet l =>
    simp only [wfAsPath, Bool.and_eq_true, decide_eq_true_eq] at h
    exact h.1.2

theorem attrLoop_step_origin (o : Origin) (f : Nat) (rest : List Nat) :
    pathAttrLoop (f + 1) (pathAttributeToBytes (.origin o) ++ rest) =
      (pathAttrLoop f rest).map (fun l => PathAttribute.origin o :: l) := by
  cases o <;> rfl

theorem attrLoop_step_nextHop (ip : Ipv4Addr) (f : Nat) (rest : List Nat) :
    pathAttrLoop (f + 1) (pathAttributeToBytes (.nextHop ip) ++ rest) =
      (pathAttrLoop f rest).map (fun l => PathAttribute.nextHop ip :: l) := by
  obtain ⟨a, b, c, d⟩ := ip
  rfl

theorem attrLoop_step_asPath {a : AsPath} (h : wfAsPath a = true) (f : Nat)
    (rest : List Nat) :
    pathAttrLoop (f + 1) (pathAttributeToBytes (.asPath a) ++ rest) =
      (pathAttrLoop f rest).map (fun l => PathAttribute.asPath a :: l) := by
  have hle : a.bytesLen ≤ 255 := wfAsPath_bytesLen_le h
  have henc : pathAttributeToBytes (.asPath a) =
      64 :: 2 :: a.bytesLen :: asPathToBytes a := by
    simp only [pathAttributeToBytes]
    rw [Nat.mod_eq_of_lt (by omega : a.bytesLen < 65536),
      if_pos (by omega : a.bytesLen < 256)]
  rw [henc, List.cons_append, List.cons_append, List.cons_append, pathAttrLoop]
  have htake : List.take a.bytesLen (asPathToBytes a ++ rest) = asPathToBytes a := by
    rw [← asPathToBytes_length a, List.take_left]
  have hdrop3 : List.drop (2 + (0 + 1) + a.bytesLen)
      (64 :: 2 :: a.bytesLen :: (asPathToBytes a ++ rest)) = rest := by
    rw [show 2 + (0 + 1) + a.bytesLen = a.bytesLen + 1 + 1 + 1 from by omega,
      List.drop_succ_cons, List.drop_succ_cons, List.drop_succ_cons,
      ← asPathToBytes_length a, List.drop_left]
  simp only [show Nat.land 64 16 = 0 from rfl, List.get?_cons_succ,
    List.get?_cons_zero, List.length_cons, List.drop_succ_cons, List.drop_zero,
    List.length_append, asPathToBytes_length, ite_true, ite_false,
    if_neg (by omega : ¬ (2 : Nat) = 1), htake, hdrop3,
    asPath_value_roundtrip h]
  rw [if_pos (show 2 + (0 + 1) + a.bytesLen ≤ a.bytesLen + rest.length + 1 + 1 + 1
    by omega)]
  rfl

theorem pathAttributeToBytes_length {p : PathAttribute} (h : wfAttr p = true) :
    (pathAttributeToBytes p).length = p.bytesLen := by
  cases p with
  | origin o => rfl
  | nextHop ip => rfl
  | dontKnow v => simp [wfAttr] at h
  | asPath a =>
    have hle : a.bytesLen ≤ 255 := wfAsPath_bytesLen_le (by simpa [wfAttr] using h)
    simp only [pathAttributeToBytes,
      Nat.mod_eq_of_lt (by omega : a.bytesLen < 65536),
      if_pos (by omega : a.bytesLen < 256), List.length_cons,
      asPathToBytes_length, PathAttribute.bytesLen,
      if_neg (by omega : ¬ a.bytesLen > 255)]

theorem attr_flat_length (pas : List PathAttribute)
    (h : ∀ p ∈ pas, wfAttr p = true) :
    (pas.flatMap pathAttributeToBytes).length =
      (pas.map PathAttribute.bytesLen).sum := by
  induction pas with
  | nil => rfl
  | cons p t ih =>
    simp only [List.flatMap_cons, List.length_append, List.map_cons,
      List.sum_cons, pathAttributeToBytes_length (h p (by simp)),
      ih (fun x hx => h x (by simp [hx]))]

theorem attrLoop_flat (pas : List PathAttribute)
    (h : ∀ p ∈ pas, wfAttr p = true) :
    ∀ f, pas.length ≤ f →
      pathAttrLoop f (pas.flatMap pathAttributeToBytes) = some pas := by
  induction pas with
  | nil =>
    intro f _
    cases f <;> rfl
  | cons p t ih =>
    intro f hf
    cases f with
    | zero => simp at hf
    | succ f2 =>
      rw [List.flatMap_cons]
      have hstep : pathAttrLoop (f2 + 1)
          (pathAttributeToBytes p ++ t.flatMap pathAttributeToBytes) =
          (pathAttrLoop f2 (t.flatMap pathAttributeToBytes)).map
            (fun l => p :: l) := by
        cases p with
        | origin o => exact attrLoop_step_origin o f2 _
        | nextHop ip => exact attrLoop_step_nextHop ip f2 _
        | asPath a =>
          exact attrLoop_step_asPath
            (by simpa [wfAttr] using h (PathAttribute.asPath a) (by simp)) f2 _
        | dontKnow v =>
          have := h (PathAttribute.dontKnow v) (by simp)
          simp [wfAttr] at this
      rw [hstep, ih (fun x hx => h x (by simp [hx])) f2 (by simpa using hf)]
      rfl

theorem attr_flat_count_le (pas : List PathAttribute)
    (h : ∀ p ∈ pas, wfAttr p = true) :
    pas.length ≤ (pas.flatMap pathAttributeToBytes).length := by
  induction pas with
  | nil => simp
  | cons p t ih =>
    simp only [List.flatMap_cons, List.length_append, List.length_cons]
    have h1 : 1 ≤ (pathAttributeToBytes p).length := by
      rw [pathAttributeToBytes_length (h p (by simp))]
      cases p with
      | origin o => simp [PathAttribute.bytesLen]
      | nextHop ip => simp [PathAttribute.bytesLen]
      | asPath a => simp only [PathAttribute.bytesLen]; split <;> omega
      | dontKnow v => simp [wfAttr] at h
    have h2 := ih (fun x hx => h x (by simp [hx]))
    omega

theorem pathAttribute_decode_encode_list (pas : List PathAttribute)
    (h : ∀ p ∈ pas, wfAttr p = true) :
    pathAttributeFromU8Slice (pas.flatMap pathAttributeToBytes) = some pas :=
  attrLoop_flat pas h _ (attr_flat_count_le pas h)

theorem ipv4NetworkToBytes_length_eq {n : Ipv4Network} (h : wfNet n = true) :
    (ipv4NetworkToBytes n).length = n.bytesLen := by
  obtain ⟨⟨a, b, c, d⟩, p⟩ := n
  simp only [wfNet, Bool.and_eq_true, decide_eq_true_eq] at h
  have hp : p ≤ 32 := h.1.1.1.1.1
  simp only [ipv4NetworkToBytes, Ipv4Network.bytesLen]
  split_ifs <;> simp

theorem ipv4_flat_length (ns : List Ipv4Network)
    (h : ∀ n ∈ ns, wfNet n = true) :
    (ns.flatMap ipv4NetworkToBytes).length =
      (ns.map Ipv4Network.bytesLen).sum := by
  induction ns with
  | nil => rfl
  | cons n t ih =>
    simp only [List.flatMap_cons, List.length_append, List.map_cons,
      List.sum_cons, ipv4NetworkToBytes_length_eq (h n (by simp)),
      ih (fun x hx => h x (by simp [hx]))]

theorem headerToBytes_length (h : Header) : (headerToBytes h).length = 19 := by
  simp [headerToBytes]

theorem header_decode_encode {h : Header} (hl : h.length < 65536) :
    headerTryFrom (headerToBytes h) = some h := by
  obtain ⟨len, t⟩ := h
  have hl2 : len < 65536 := hl
  have hb : headerToBytes ⟨len, t⟩ =
      [255, 255, 255, 255, 255, 255, 255, 255, 255, 255, 255, 255, 255, 255,
        255, 255, len / 256 % 256, len % 256, t.toU8] := by
    simp [headerToBytes, List.replicate]
  rw [hb]
  cases t <;>
    · simp only [headerTryFrom, List.length_cons, List.length_nil,
        List.getD_cons_succ, List.getD_cons_zero, MessageType.toU8,
        messageTypeTryFrom]
      norm_num
      simp only [u16FromBytes, Option.map_some, Option.map_some',
        Option.some.injEq, Header.mk.injEq, and_true]
      omega

theorem keepaliveMessage_roundtrip :
    keepaliveMessageTryFrom (keepaliveMessageToBytes keepaliveMessageNew) =
      some keepaliveMessageNew := by
  decide

theorem openMessage_roundtrip (asn : Nat) (hA : asn < 65536) (ip : Ipv4Addr) :
    openMessageTryFrom (openMessageToBytes (openMessageNew asn ip)) =
      some (openMessageNew asn ip) := by
  obtain ⟨a, b, c, d⟩ := ip
  have hb : openMessageToBytes (openMessageNew asn ⟨a, b, c, d⟩) =
      [255, 255, 255, 255, 255, 255, 255, 255, 255, 255, 255, 255, 255, 255,
        255, 255, 0, 29, 1, 4, asn % 65536 / 256 % 256, asn % 65536 % 256,
        0, 240, a, b, c, d, 0] := by
    simp [openMessageToBytes, openMessageNew, headerToBytes, u16ToBytes,
      versionNew, holdTimeNew, Ipv4Addr.octets, List.replicate,
      MessageType.toU8]
  rw [hb]
  simp only [openMessageTryFrom, List.length_cons, List.length_nil]
  norm_num
  simp only [List.take_succ_cons, List.take_zero, headerTryFrom,
    List.length_cons, List.length_nil, List.getD_cons_succ, List.getD_cons_zero,
    messageTypeTryFrom, MessageType.toU8, List.drop_succ_cons, List.drop_zero]
  norm_num
  simp only [versionTryFrom, u16FromBytes, openMessageNew, versionNew,
    holdTimeNew, Nat.mod_eq_of_lt hA]
  norm_num
  all_goals first | rfl | omega

theorem updateTryFrom_structured (hdr : Header) (wl pl : Nat)
    (W P N : List Nat) (hWl : W.length = wl) (hPl : P.length = pl)
    (hwlt : wl < 65536) (hplt : pl < 65536) (hhdr : hdr.length < 65536) :
    updateMessageTryFrom (headerToBytes hdr ++
        ((wl / 256 % 256) :: (wl % 256) ::
          (W ++ ((pl / 256 % 256) :: (pl % 256) :: (P ++ N))))) =
      (match ipv4NetworkFromU8Slice W with
       | none => none
       | some ws =>
         match pathAttributeFromU8Slice P with
         | none => none
         | some pas2 =>
           match ipv4NetworkFromU8Slice N with
           | none => none
           | some nlri2 => some ⟨hdr, ws, wl, pas2, pl, nlri2⟩) := by
  have hH : (headerToBytes hdr).length = 19 := headerToBytes_length hdr
  set B : List Nat := headerToBytes hdr ++
      ((wl / 256 % 256) :: (wl % 256) ::
        (W ++ ((pl / 256 % 256) :: (pl % 256) :: (P ++ N)))) with hB
  have hlenB : B.length = 23 + wl + pl + N.length := by
    simp only [hB, List.length_append, List.length_cons, hH, hWl, hPl]
    omega
  have hg19 : B.getD 19 0 = wl / 256 % 256 := by
    rw [hB, List.getD_append_right _ _ _ _ (by omega : (headerToBytes hdr).length ≤ 19), hH]
    simp
  have hg20 : B.getD 20 0 = wl % 256 := by
    rw [hB, List.getD_append_right _ _ _ _ (by omega : (headerToBytes hdr).length ≤ 20), hH]
    simp
  have htake19 : List.take 19 B = headerToBytes hdr := by
    rw [hB, ← hH, List.take_left]
  have htakeW : List.take wl (List.drop 21 B) = W := by
    rw [hB, show (21 : Nat) = (headerToBytes hdr).length + 2 from by omega,
      List.drop_append]
    simp only [List.drop_succ_cons, List.drop_zero]
    rw [← hWl, List.take_left]
  have hgw0 : B.getD (21 + wl) 0 = pl / 256 % 256 := by
    rw [hB, List.getD_append_right _ _ _ _
        (by omega : (headerToBytes hdr).length ≤ 21 + wl), hH,
      show 21 + wl - 19 = wl + 1 + 1 from by omega, List.getD_cons_succ,
      List.getD_cons_succ,
      List.getD_append_right _ _ _ _ (by omega : W.length ≤ wl), hWl]
    simp
  have hgw1 : B.getD (21 + wl + 1) 0 = pl % 256 := by
    rw [hB, List.getD_append_right _ _ _ _
        (by omega : (headerToBytes hdr).length ≤ 21 + wl + 1), hH,
      show 21 + wl + 1 - 19 = wl + 1 + 1 + 1 from by omega, List.getD_cons_succ,
      List.getD_cons_succ,
      List.getD_append_right _ _ _ _ (by omega : W.length ≤ wl + 1), hWl,
      show wl + 1 - wl = 1 from by omega]
    simp
  have htakeP : List.take pl (List.drop (21 + wl + 2) B) = P := by
    rw [hB, show 21 + wl + 2 = (headerToBytes hdr).length + (wl + 2 + 2) from by
        omega, List.drop_append,
      show wl + 2 + 2 = wl + 2 + 1 + 1 from by omega, List.drop_succ_cons,
      List.drop_succ_cons,
      show wl + 2 = W.length + 2 from by omega, List.drop_append]
    simp only [List.drop_succ_cons, List.drop_zero]
    rw [← hPl, List.take_left]
  have hdropN : List.drop (21 + wl + 2 + pl) B = N := by
    rw [hB, show 21 + wl + 2 + pl = (headerToBytes hdr).length + (wl + pl + 2 + 2)
        from by omega, List.drop_append,
      show wl + pl + 2 + 2 = wl + pl + 2 + 1 + 1 from by omega,
      List.drop_succ_cons, List.drop_succ_cons,
      show wl + pl + 2 = W.length + (pl + 2) from by omega, List.drop_append,
      show pl + 2 = pl + 1 + 1 from by omega, List.drop_succ_cons,
      List.drop_succ_cons, ← hPl, List.drop_left]
  simp only [updateMessageTryFrom]
  rw [if_neg (by omega : ¬ B.length < 21), htake19, header_decode_encode hhdr,
    hg19, hg20, u16FromBytes_split hwlt]
  simp only []
  rw [if_neg (by omega : ¬ B.length < 21 + wl + 2), htakeW, hgw0, hgw1,
    u16FromBytes_split hplt]
  cases hws : ipv4NetworkFromU8Slice W with
  | none => rfl
  | some ws0 =>
    simp only []
    rw [if_neg (by omega : ¬ B.length < 21 + wl + 2 + pl), htakeP, hdropN]

theorem updateMessage_roundtrip (pas : List PathAttribute)
    (nlri ws : List Ipv4Network)
    (hpas : ∀ p ∈ pas, wfAttr p = true)
    (hnlri : ∀ n ∈ nlri, wfNet n = true)
    (hws : ∀ n ∈ ws, wfNet n = true)
    (hpl : (pas.map PathAttribute.bytesLen).sum < 65536)
    (hwl : (ws.map Ipv4Network.bytesLen).sum < 65536) :
    updateMessageTryFrom (updateMessageToBytes (updateMessageNew pas nlri ws)) =
      some (updateMessageNew pas nlri ws) := by
  have hwmod : (ws.map Ipv4Network.bytesLen).sum % 65536 =
      (ws.map Ipv4Network.bytesLen).sum := Nat.mod_eq_of_lt hwl
  have hpmod : (pas.map PathAttribute.bytesLen).sum % 65536 =
      (pas.map PathAttribute.bytesLen).sum := Nat.mod_eq_of_lt hpl
  have henc : updateMessageToBytes (updateMessageNew pas nlri ws) =
      headerToBytes (updateMessageNew pas nlri ws).header ++
        (((ws.map Ipv4Network.bytesLen).sum / 256 % 256) ::
          ((ws.map Ipv4Network.bytesLen).sum % 256) ::
          (ws.flatMap ipv4NetworkToBytes ++
            (((pas.map PathAttribute.bytesLen).sum / 256 % 256) ::
              ((pas.map PathAttribute.bytesLen).sum % 256) ::
              (pas.flatMap pathAttributeToBytes ++
                nlri.flatMap ipv4NetworkToBytes)))) := by
    simp only [updateMessageToBytes, updateMessageNew, u16ToBytes, hwmod, hpmod,
      List.cons_append, List.nil_append]
  rw [henc,
    updateTryFrom_structured (updateMessageNew pas nlri ws).header
      ((ws.map Ipv4Network.bytesLen).sum) ((pas.map PathAttribute.bytesLen).sum)
      (ws.flatMap ipv4NetworkToBytes) (pas.flatMap pathAttributeToBytes)
      (nlri.flatMap ipv4NetworkToBytes)
      (ipv4_flat_length ws hws) (attr_flat_length pas hpas) hwl hpl
      (Nat.mod_lt _ (by norm_num)),
    ipv4_decode_encode_list ws hws, pathAttribute_decode_encode_list pas hpas,
    ipv4_decode_encode_list nlri hnlri]
  simp only []
  simp [updateMessageNew, hwmod, hpmod]

end Mrbgpdv2
